import Mathlib

/-!
# go-youtube-transcript-fetcher: the caption pipeline

A shallow embedding of `transcript.go`, `types.go`, `errors/errors.go` and
`constants/constants.go`.

Modelling conventions.

* A Go `string` is a list of code points (`Str`); the page texts, markers and
  payloads handled here are UTF-8 text, on which the byte-wise substring
  operations of package `strings` and the rune-wise matching of package
  `regexp` agree with their code-point-wise counterparts below.
* A Go `(value, error)` result is an `Except Error value`.
* The two HTTP exchanges are inputs: the watch page text is an argument of
  `parseCaptionsData`, and the HTTP client is a function argument of
  `fetchAndParseTranscript` that tells the outcome of the track request.
* `json.Unmarshal` (package `encoding/json`) and the `%f` verb of
  `fmt.Sscanf` are library code and enter as function arguments; where a
  claim depends on what the scan of `%f` does, the argument is `SscanfFloat`,
  which follows package `fmt` up to the conversion of the token.
* Go's `len` of a string counts bytes (`len`), the length of a `Str` counts
  characters.
-/

set_option maxRecDepth 100000

namespace YtFetcher

/-- A Go string, as the list of its code points. -/
abbrev Str := List Char

deriving instance DecidableEq for Except

/-! ## Package `strings` -/

/-- The function `strings.Index`: position of the first occurrence of
`substr` in `s`, `none` for Go's `-1`. -/
def Index : Str → Str → Option Nat
  | [], substr => if substr = [] then some 0 else none
  | c :: t, substr =>
    if substr.isPrefixOf (c :: t) then some 0 else (Index t substr).map (· + 1)

/-- The function `strings.Contains`: `Index(s, substr) >= 0`. -/
def Contains (s substr : Str) : Bool := (Index s substr).isSome

/-- The loop of `strings.genSplit`: cut at the first occurrence of `sep`,
continue behind it. The counter bounds the number of cuts. -/
def genSplit (sep : Str) : Nat → Str → List Str
  | 0, s => [s]
  | n + 1, s =>
    match Index s sep with
    | none => [s]
    | some m => s.take m :: genSplit sep n (s.drop (m + sep.length))

/-- The function `strings.Split`. With an empty separator the string is
exploded into its code points; otherwise it is cut at every non-overlapping
occurrence of `sep`, from the left (there are at most `s.length` of them). -/
def Split (s sep : Str) : List Str :=
  if sep = [] then s.map (fun c => [c]) else genSplit sep s.length s

/-- The loop of `strings.Replace` for a non-empty `old`. -/
def replaceLoop (old new : Str) : Nat → Str → Str
  | 0, s => s
  | n + 1, s =>
    match Index s old with
    | none => s
    | some m => s.take m ++ new ++ replaceLoop old new n (s.drop (m + old.length))

/-- The function `strings.ReplaceAll` for a non-empty `old`: every
non-overlapping occurrence of `old`, from the left, becomes `new`. -/
def ReplaceAll (s old new : Str) : Str := replaceLoop old new s.length s

/-! ## `types.go` -/

/-- One caption track of a video. -/
structure CaptionTrack where
  BaseURL : Str
  LanguageCode : Str
  deriving DecidableEq, Repr

/-- The track list of the captions block. -/
structure CaptionsTracklistRenderer where
  CaptionTracks : List CaptionTrack
  deriving DecidableEq, Repr

/-- The decoded captions block. -/
structure CaptionsData where
  PlayerCaptionsTracklistRenderer : CaptionsTracklistRenderer
  deriving DecidableEq, Repr

/-- One segment of a transcript; `F` is the type of the scanned numbers. -/
structure TranscriptSegment (F : Type) where
  Text : Str
  Duration : F
  Offset : F
  Lang : Str
  deriving DecidableEq, Repr

/-! ## `errors/errors.go` -/

/-- The error values of the pipeline: the six error types of package
`errors`, each with the fields of its struct, and the errors of the HTTP
layer, which are passed on unchanged. -/
inductive Error where
  | TranscriptError (Message : Str)
  | RateLimitError (Message : Str)
  | VideoUnavailableError (Message : Str) (VideoID : Str)
  | TranscriptDisabledError (Message : Str) (VideoID : Str)
  | NoTranscriptError (Message : Str) (VideoID : Str)
  | LanguageNotFoundError (Message : Str) (Lang : Str) (AvailableLangs : List Str)
      (VideoID : Str)
  | TransportError (description : Str)
  deriving DecidableEq, Repr

/-- The function `NewTranscriptError`. -/
def NewTranscriptError (message : Str) : Error := .TranscriptError message

/-- The function `NewRateLimitError`. -/
def NewRateLimitError : Error :=
  .RateLimitError
    ("⚠️  Rate Limit Exceeded\n".toList ++
      "\n".toList ++
      "YouTube is receiving too many requests from this IP.\n".toList ++
      "Please try again later or use a different IP address.".toList)

/-- The function `NewVideoUnavailableError`. -/
def NewVideoUnavailableError (videoID : Str) : Error :=
  .VideoUnavailableError
    ("🚫  Video Unavailable\n\nThe video \"".toList ++ videoID ++
      "\" is no longer available.\nIt may have been removed or set to private.".toList)
    videoID

/-- The function `NewTranscriptDisabledError`. -/
def NewTranscriptDisabledError (videoID : Str) : Error :=
  .TranscriptDisabledError
    ("❌  Transcripts Disabled\n\nTranscripts are disabled for video \"".toList ++ videoID ++
      "\".\nThe video owner has not enabled transcripts for this content.".toList)
    videoID

/-- The function `NewNoTranscriptError`. -/
def NewNoTranscriptError (videoID : Str) : Error :=
  .NoTranscriptError
    ("📝  No Transcripts Available\n\nNo transcripts were found for video \"".toList ++ videoID ++
      "\".\nThis video may not have any transcripts generated yet.".toList)
    videoID

/-- The call `strings.Join(elems, sep)`. -/
def Join : List Str → Str → Str
  | [], _ => []
  | [a], _ => a
  | a :: b :: rest, sep => a ++ sep ++ Join (b :: rest) sep

/-- The function `NewLanguageNotFoundError`. -/
def NewLanguageNotFoundError (lang : Str) (availableLangs : List Str) (videoID : Str) :
    Error :=
  let langBullets := availableLangs.map (fun l => "  • ".toList ++ l)
  .LanguageNotFoundError
    ("🌐  Language Not Available\n\nTranscripts in \"".toList ++ lang ++
      "\" are not available for video \"".toList ++ videoID ++
      "\".\n\nAvailable languages:\n".toList ++ Join langBullets "\n".toList)
    lang availableLangs videoID

/-! ## `transcript.go`: the captions block of the watch page -/

/-- The marker that introduces the captions block. -/
def captionsMarker : Str := "\"captions\":".toList

/-- The boundary behind the captions block. -/
def videoDetailsMarker : Str := ",\"videoDetails".toList

/-- The CAPTCHA marker. -/
def recaptchaMarker : Str := "class=\"g-recaptcha\"".toList

/-- The playability marker. -/
def playabilityMarker : Str := "\"playabilityStatus\":".toList

/-- The method `handlePageErrors`. -/
def handlePageErrors (pageContent videoID : Str) : Error :=
  if Contains pageContent recaptchaMarker then NewRateLimitError
  else if !Contains pageContent playabilityMarker then NewVideoUnavailableError videoID
  else NewTranscriptDisabledError videoID

/-- The text that `extractCaptionsJSON` hands to the decoder: the section up
to the video-details boundary, without its newlines. -/
def captionsJSONText (captionsSection : Str) : Str :=
  let jsonStr := (Split captionsSection videoDetailsMarker).headD []
  ReplaceAll jsonStr "\n".toList []

/-- The method `extractCaptionsJSON`; `unmarshal` is `json.Unmarshal` into a
`CaptionsData`, `none` when it reports an error. -/
def extractCaptionsJSON (unmarshal : Str → Option CaptionsData) (captionsSection : Str) :
    Option CaptionsData :=
  unmarshal (captionsJSONText captionsSection)

/-- The method `parseCaptionsData`. -/
def parseCaptionsData (unmarshal : Str → Option CaptionsData) (pageContent videoID : Str) :
    Except Error CaptionsData :=
  let parts := Split pageContent captionsMarker
  if parts.length ≤ 1 then .error (handlePageErrors pageContent videoID)
  else
    match extractCaptionsJSON unmarshal (parts.getD 1 []) with
    | none => .error (NewTranscriptDisabledError videoID)
    | some captionsJSON =>
      if captionsJSON.PlayerCaptionsTracklistRenderer.CaptionTracks.length = 0 then
        .error (NewNoTranscriptError videoID)
      else .ok captionsJSON

/-! ## `transcript.go`: track selection -/

/-- The method `validateLanguageAvailability`; `none` is Go's `nil` error. -/
def validateLanguageAvailability (captionsData : CaptionsData) (lang videoID : Str) :
    Option Error :=
  let tracks := captionsData.PlayerCaptionsTracklistRenderer.CaptionTracks
  let isLanguageAvailable := tracks.any (fun track => track.LanguageCode == lang)
  if !isLanguageAvailable then
    let availableLanguages := tracks.map (fun track => track.LanguageCode)
    some (NewLanguageNotFoundError lang availableLanguages videoID)
  else none

/-- The track chosen by `getTranscriptURL`, `none` for the `nil` pointer. -/
def selectTrack (tracks : List CaptionTrack) (requestedLang : Str) : Option CaptionTrack :=
  if requestedLang ≠ [] then tracks.find? (fun t => t.LanguageCode == requestedLang)
  else tracks.head?

/-- The method `getTranscriptURL`: the track URL and the default language. -/
def getTranscriptURL (captionsData : CaptionsData) (videoID requestedLang : Str) :
    Except Error (Str × Str) :=
  let tracks := captionsData.PlayerCaptionsTracklistRenderer.CaptionTracks
  match (if requestedLang ≠ [] then
      validateLanguageAvailability captionsData requestedLang videoID else none) with
  | some err => .error err
  | none =>
    match selectTrack tracks requestedLang with
    | some track => .ok (track.BaseURL, track.LanguageCode)
    | none => .error (NewNoTranscriptError videoID)

/-! ## Package `regexp`

Go's `regexp` finds the leftmost match and, among the matches that start
there, the one a backtracking search finds first. The engine below is that
backtracking search: `run` lists, in the order in which backtracking tries
them, all ways in which an expression can match a prefix of the input. -/

/-- The regular expressions of `constants.go`. Repetition is only ever
applied to a character class there. -/
inductive Regex where
  /-- literal text -/
  | lit (l : Str)
  /-- one character of a class (`.`, `[...]`, `[^...]`) -/
  | cls (p : Char → Bool)
  /-- the greedy repetition `c*` of a class -/
  | star (p : Char → Bool)
  /-- the greedy repetition `c+` of a class -/
  | plus (p : Char → Bool)
  /-- the counted repetition `c{n}` of a class -/
  | rep (p : Char → Bool) (n : Nat)
  /-- concatenation -/
  | seq (a b : Regex)
  /-- alternation `a|b`, the left branch is preferred -/
  | alt (a b : Regex)
  /-- the greedy option `a?` -/
  | opt (a : Regex)
  /-- the capture group number `i` -/
  | group (i : Nat) (a : Regex)

/-- The remainders that `c*` can leave, longest repetition first. -/
def starRests (p : Char → Bool) : Str → List Str
  | [] => [[]]
  | c :: t => if p c then starRests p t ++ [c :: t] else [c :: t]

/-- All matches of an expression against a prefix of `s`, in backtracking
order; each is the remainder of the input with the submatches recorded so
far. -/
def Regex.run : Regex → Str → List Str → List (Str × List Str)
  | .lit l, s, caps => if l.isPrefixOf s then [(s.drop l.length, caps)] else []
  | .cls p, s, caps =>
    match s with
    | [] => []
    | c :: t => if p c then [(t, caps)] else []
  | .star p, s, caps => (starRests p s).map (fun rest => (rest, caps))
  | .plus p, s, caps =>
    match s with
    | [] => []
    | c :: t => if p c then (starRests p t).map (fun rest => (rest, caps)) else []
  | .rep p n, s, caps =>
    if (s.take n).length = n ∧ (s.take n).all p then [(s.drop n, caps)] else []
  | .seq a b, s, caps => (a.run s caps).flatMap (fun x => b.run x.1 x.2)
  | .alt a b, s, caps => a.run s caps ++ b.run s caps
  | .opt a, s, caps => a.run s caps ++ [(s, caps)]
  | .group i a, s, caps =>
    (a.run s caps).map (fun x => (x.1, x.2.set i (s.take (s.length - x.1.length))))

/-- The first match of `re` that starts at the head of `s`: the remainder
behind the match and the submatches, entry `0` being the whole match and an
unmatched group the empty string. `ngroups` is the number of groups. -/
def Regex.matchAt (re : Regex) (ngroups : Nat) (s : Str) : Option (Str × List Str) :=
  ((Regex.group 0 re).run s (List.replicate (ngroups + 1) [])).head?

/-- The leftmost match of `re` in `s`. -/
def Regex.find (re : Regex) (ngroups : Nat) : Str → Option (Str × List Str)
  | [] => re.matchAt ngroups []
  | c :: t =>
    match re.matchAt ngroups (c :: t) with
    | some x => some x
    | none => Regex.find re ngroups t

/-- The loop of `(*Regexp).allMatches`: `s` is the input from the search
position on and `prevHere` tells that the previous match ended at this
position. An empty match at the search position is dropped when
`prevHere` holds, and the search then moves on by one character; otherwise
it continues behind the match. -/
def allMatches (re : Regex) (ngroups : Nat) : Nat → Str → Bool → List (List Str)
  | 0, _, _ => []
  | fuel + 1, s, prevHere =>
    match re.find ngroups s with
    | none => []
    | some (rest, caps) =>
      if rest.length = s.length then
        let later :=
          match s with
          | [] => []
          | _ :: t => allMatches re ngroups fuel t false
        if prevHere then later else caps :: later
      else caps :: allMatches re ngroups fuel rest true

/-- The method `FindAllStringSubmatch(s, -1)`; the empty list is Go's `nil`.
As in Go, at most `len(s) + 1` matches are looked for. -/
def FindAllStringSubmatch (re : Regex) (ngroups : Nat) (s : Str) : List (List Str) :=
  allMatches re ngroups (s.length + 1) s false

/-! ## `constants/constants.go` -/

/-- The expression `TranscriptXMLRegex`:
`<text start="([^"]*)" dur="([^"]*)">([^<]*)</text>`. -/
def TranscriptXMLRegex : Regex :=
  .seq (.lit "<text start=\"".toList)
    (.seq (.group 1 (.star (fun c => c != '"')))
      (.seq (.lit "\" dur=\"".toList)
        (.seq (.group 2 (.star (fun c => c != '"')))
          (.seq (.lit "\">".toList)
            (.seq (.group 3 (.star (fun c => c != '<')))
              (.lit "</text>".toList))))))

/-! ## `transcript.go`: fetching and parsing the track -/

/-- What an HTTP GET comes to: `http.NewRequest` fails, `client.Do` fails,
or there is a response with a status code and a body that `io.ReadAll`
reads or fails to read. -/
inductive HTTPOutcome where
  | requestError (err : Str)
  | doError (err : Str)
  | response (StatusCode : Nat) (body : Except Str Str)
  deriving DecidableEq, Repr

/-- The client of `getHTTPClient` at work: the outcome of a GET of a URL with
the given `Accept-Language` header (empty when the header is not set). -/
abbrev HTTPClient := Str → Str → HTTPOutcome

/-- The segment built from one match in the loop of `fetchAndParseTranscript`;
`scanFloat t` is the value of the variable after `fmt.Sscanf(t, "%f", &v)`. -/
def makeSegment {F : Type} (scanFloat : Str → F) (requestedLang defaultLang : Str)
    (m : List Str) : TranscriptSegment F :=
  let offset := scanFloat (m.getD 1 [])
  let duration := scanFloat (m.getD 2 [])
  let segment : TranscriptSegment F :=
    { Text := m.getD 3 [], Duration := duration, Offset := offset, Lang := requestedLang }
  if segment.Lang = [] then { segment with Lang := defaultLang } else segment

/-- The method `fetchAndParseTranscript`. -/
def fetchAndParseTranscript {F : Type} (scanFloat : Str → F) (client : HTTPClient)
    (transcriptURL requestedLang defaultLang : Str) :
    Except Error (List (TranscriptSegment F)) :=
  match client transcriptURL requestedLang with
  | .requestError err => .error (.TransportError err)
  | .doError err => .error (.TransportError err)
  | .response StatusCode body =>
    if StatusCode ≠ 200 then .error (NewNoTranscriptError transcriptURL)
    else
      match body with
      | .error err => .error (.TransportError err)
      | .ok transcriptText =>
        let ms := FindAllStringSubmatch TranscriptXMLRegex 3 transcriptText
        if ms.isEmpty then .error (NewNoTranscriptError transcriptURL)
        else .ok (ms.map (makeSegment scanFloat requestedLang defaultLang))

/-! ## `transcript.go`: resolving the identifier -/

/-- Go's `len` of a string: the number of bytes of its UTF-8 encoding. -/
def len (s : Str) : Nat := (s.map Char.utf8Size).sum

/-- The class `.`: any character but the newline. -/
def dotClass (c : Char) : Bool := c != '\n'

/-- The class `[^\/]`. -/
def notSlashClass (c : Char) : Bool := c != '/'

/-- The class `[?&]`. -/
def queryClass (c : Char) : Bool := c == '?' || c == '&'

/-- The class `[^"&?\/\s]`; `\s` is `[\t\n\f\r ]`. -/
def idClass (c : Char) : Bool :=
  !(c == '"' || c == '&' || c == '?' || c == '/' ||
    c == '\t' || c == '\n' || c == '\x0c' || c == '\r' || c == ' ')

/-- The part of `VideoIDRegex` in front of the capture group:
`(?:youtube\.com\/(?:[^\/]+\/.+\/|(?:v|e(?:mbed)?)\/|.*[?&]v=)|youtu\.be\/)`. -/
def VideoIDLead : Regex :=
  .alt
    (.seq (.lit "youtube.com/".toList)
      (.alt
        (.seq (.plus notSlashClass)
          (.seq (.lit "/".toList) (.seq (.plus dotClass) (.lit "/".toList))))
        (.alt
          (.seq (.alt (.lit "v".toList) (.seq (.lit "e".toList) (.opt (.lit "mbed".toList))))
            (.lit "/".toList))
          (.seq (.star dotClass) (.seq (.cls queryClass) (.lit "v=".toList))))))
    (.lit "youtu.be/".toList)

/-- The expression `VideoIDRegex`:
`(?:youtube\.com\/(?:[^\/]+\/.+\/|(?:v|e(?:mbed)?)\/|.*[?&]v=)|youtu\.be\/)([^"&?\/\s]{11})`. -/
def VideoIDRegex : Regex := .seq VideoIDLead (.group 1 (.rep idClass 11))

/-- The first alternative behind `youtube\.com\/`: `[^\/]+\/.+\/`. -/
def pathLead : Regex :=
  .seq (.plus notSlashClass) (.seq (.lit "/".toList) (.seq (.plus dotClass) (.lit "/".toList)))

/-- The second alternative behind `youtube\.com\/`: `(?:v|e(?:mbed)?)\/`. -/
def shortLead : Regex :=
  .seq (.alt (.lit "v".toList) (.seq (.lit "e".toList) (.opt (.lit "mbed".toList))))
    (.lit "/".toList)

/-- The third alternative behind `youtube\.com\/`: `.*[?&]v=`. -/
def queryLead : Regex :=
  .seq (.star dotClass) (.seq (.cls queryClass) (.lit "v=".toList))

/-- The capture group of `VideoIDRegex`: `([^"&?\/\s]{11})`. -/
def idGroup : Regex := .group 1 (.rep idClass 11)

/-- The method `FindStringSubmatch`: the submatches of the leftmost match,
the empty list (Go's `nil`) when there is none. -/
def FindStringSubmatch (re : Regex) (ngroups : Nat) (s : Str) : List Str :=
  match re.find ngroups s with
  | none => []
  | some (_, caps) => caps

/-- The message of the identifier-extraction error. -/
def extractionMessage : Str :=
  "Could not extract YouTube video ID from the provided string".toList

/-- The method `retrieveVideoID`. -/
def retrieveVideoID (videoID : Str) : Except Error Str :=
  if len videoID = 11 then .ok videoID
  else
    let ms := FindStringSubmatch VideoIDRegex 1 videoID
    if ms.length > 1 then .ok (ms.getD 1 [])
    else .error (NewTranscriptError extractionMessage)

/-! ## `transcript.go`: the pipeline -/

/-- The configuration of a request. Its `Proxy` and `Client` fields only
decide which HTTP client is used; the clients are arguments of
`FetchTranscript`. -/
structure TranscriptConfig where
  Lang : Str
  deriving DecidableEq, Repr

/-- The language of an optional configuration: `config.Lang`, empty for the
`nil` configuration. -/
def configLang (config : Option TranscriptConfig) : Str :=
  match config with
  | some c => c.Lang
  | none => []

/-- The method `fetchVideoPage`; the status code of the response is not
looked at. -/
def fetchVideoPage (client : HTTPClient) (videoID : Str) (config : Option TranscriptConfig) :
    Except Error Str :=
  let url := "https://www.youtube.com/watch?v=".toList ++ videoID
  match client url (configLang config) with
  | .requestError err => .error (.TransportError err)
  | .doError err => .error (.TransportError err)
  | .response _ body =>
    match body with
    | .error err => .error (.TransportError err)
    | .ok text => .ok text

/-- The method `FetchTranscript`; `pageClient` answers the request for the
watch page and `trackClient` the request for the track. -/
def FetchTranscript {F : Type} (unmarshal : Str → Option CaptionsData) (scanFloat : Str → F)
    (pageClient trackClient : HTTPClient) (videoID : Str)
    (config : Option TranscriptConfig) : Except Error (List (TranscriptSegment F)) :=
  match retrieveVideoID videoID with
  | .error err => .error err
  | .ok identifier =>
    match fetchVideoPage pageClient identifier config with
    | .error err => .error err
    | .ok pageContent =>
      match parseCaptionsData unmarshal pageContent identifier with
      | .error err => .error err
      | .ok captionsData =>
        let lang := configLang config
        match getTranscriptURL captionsData identifier lang with
        | .error err => .error err
        | .ok (transcriptURL, defaultLang) =>
          fetchAndParseTranscript scanFloat trackClient transcriptURL lang defaultLang

/-! ## Package `fmt`: the scan of `%f`

The call `fmt.Sscanf(t, "%f", &v)` of `fetchAndParseTranscript` skips
leading space, reads the longest text that looks like a number (the token),
converts the token and stores the value; on an error `v` keeps the value it
has, which is zero. The conversion of the token is a function argument. -/

/-- The function `isSpace` of package `fmt`. -/
def isSpace (c : Char) : Bool :=
  let r := c.toNat
  (0x0009 ≤ r && r ≤ 0x000d) || r == 0x0020 || r == 0x0085 || r == 0x00a0 || r == 0x1680 ||
    (0x2000 ≤ r && r ≤ 0x200a) || r == 0x2028 || r == 0x2029 || r == 0x202f ||
    r == 0x205f || r == 0x3000

/-- The method `SkipSpace` as `Sscanf` runs it: a newline is an error
(`none`), other space is passed over. -/
def skipSpace : Str → Option Str
  | [] => some []
  | c :: t =>
    if c = '\r' ∧ t.head? = some '\n' then skipSpace t
    else if c = '\n' then none
    else if isSpace c then skipSpace t
    else some (c :: t)

/-- The state of the scanner while it reads a token: the token so far and
the input that is left. -/
abbrev ScanState := Str × Str

/-- The method `accept`: the next character goes to the token when it is one
of `ok`. -/
def accept (ok : Str) (st : ScanState) : Bool × ScanState :=
  match st.2 with
  | [] => (false, st)
  | c :: t => if ok.contains c then (true, (st.1 ++ [c], t)) else (false, st)

/-- The loop `for s.accept(ok) {}`. -/
def acceptAll (ok : Str) (token : Str) : Str → ScanState
  | [] => (token, [])
  | c :: t => if ok.contains c then acceptAll ok (token ++ [c]) t else (token, c :: t)

/-- The method `floatToken`: the token that is read for a number. -/
def floatToken (input : Str) : Str :=
  let st : ScanState := ([], input)
  -- NaN?
  let (n₁, st) := accept "nN".toList st
  let (n₂, st) := if n₁ then accept "aA".toList st else (false, st)
  let (n₃, st) := if n₂ then accept "nN".toList st else (false, st)
  if n₃ then st.1
  else
    -- leading sign?
    let (_, st) := accept "+-".toList st
    -- Inf?
    let (i₁, st) := accept "iI".toList st
    let (i₂, st) := if i₁ then accept "nN".toList st else (false, st)
    let (i₃, st) := if i₂ then accept "fF".toList st else (false, st)
    if i₃ then st.1
    else
      let (z, st) := accept "0".toList st
      let (x, st) := if z then accept "xX".toList st else (false, st)
      let digits := if x then "0123456789aAbBcCdDeEfF_".toList else "0123456789_".toList
      let exp := if x then "pP".toList else "eEpP".toList
      -- digits?
      let st := acceptAll digits st.1 st.2
      -- decimal point and fraction?
      let (p, st) := accept ".".toList st
      let st := if p then acceptAll digits st.1 st.2 else st
      -- exponent?
      let (e, st) := accept exp st
      let st :=
        if e then
          let (_, st) := accept "+-".toList st
          acceptAll "0123456789_".toList st.1 st.2
        else st
      st.1

/-- The value of `v` after `fmt.Sscanf(t, "%f", &v)` when `v` was `zero`
before; `convertFloat` is the conversion of the token (the method
`convertFloat`, which rests on `strconv.ParseFloat`), `none` when it reports
an error. -/
def SscanfFloat {F : Type} (convertFloat : Str → Option F) (zero : F) (t : Str) : F :=
  match skipSpace t with
  | none => zero
  | some t₁ =>
    match skipSpace t₁ with
    | none => zero
    | some [] => zero
    | some (c :: t₂) => (convertFloat (floatToken (c :: t₂))).getD zero

/-- The token that the scan of `fmt.Sscanf(t, "%f", &v)` reads from `t` and
hands to the conversion: what `floatToken` reads behind the leading space.
There is none when the scan meets a newline or the end of the text while it
skips the leading space. -/
def scanToken (t : Str) : Option Str :=
  match skipSpace t with
  | none => none
  | some t₁ =>
    match skipSpace t₁ with
    | none => none
    | some [] => none
    | some (c :: t₂) => some (floatToken (c :: t₂))

/-! ## What an expression matches -/

/-- The texts that an expression matches, read off the expression itself
(its language); capture groups do not change it. -/
def Regex.Matches : Regex → Str → Prop
  | .lit l, m => m = l
  | .cls p, m => ∃ c, m = [c] ∧ p c = true
  | .star p, m => ∀ c ∈ m, p c = true
  | .plus p, m => m ≠ [] ∧ ∀ c ∈ m, p c = true
  | .rep p n, m => m.length = n ∧ ∀ c ∈ m, p c = true
  | .seq a b, m => ∃ m₁ m₂, m = m₁ ++ m₂ ∧ a.Matches m₁ ∧ b.Matches m₂
  | .alt a b, m => a.Matches m ∨ b.Matches m
  | .opt a, m => a.Matches m ∨ m = []
  | .group _ a, m => a.Matches m

/-- An expression without capture groups. -/
def Regex.groupFree : Regex → Bool
  | .lit _ => true
  | .cls _ => true
  | .star _ => true
  | .plus _ => true
  | .rep _ _ => true
  | .seq a b => a.groupFree && b.groupFree
  | .alt a b => a.groupFree && b.groupFree
  | .opt a => a.groupFree
  | .group _ _ => false

/-- A `text` element of a timed-text payload together with the text in front
of it. -/
structure TextElement where
  before : Str
  start : Str
  dur : Str
  text : Str
  deriving DecidableEq, Repr

/-- The element as it stands in the payload:
`<text start="START" dur="DUR">TEXT</text>`. -/
def TextElement.render (e : TextElement) : Str :=
  "<text start=\"".toList ++ e.start ++ "\" dur=\"".toList ++ e.dur ++ "\">".toList ++
    e.text ++ "</text>".toList

/-- A payload: the elements in order, each behind its leading text, and a
closing text. -/
def timedText : List TextElement → Str → Str
  | [], closing => closing
  | e :: es, closing => e.before ++ e.render ++ timedText es closing

/-- The submatches of an element: the whole element, then its three fields. -/
def TextElement.submatches (e : TextElement) : List Str :=
  [e.render, e.start, e.dur, e.text]

/-! ## Sample data for the worked instances -/

/-- A fragment of `json.Unmarshal` into a `CaptionsData`, enough for the
worked instances below: it decodes the two captions blocks listed here as
`encoding/json` does and reports every other text as a decode error. -/
def sampleUnmarshal (jsonStr : Str) : Option CaptionsData :=
  if jsonStr = "\x7b\"playerCaptionsTracklistRenderer\":\x7b\"captionTracks\":[]\x7d\x7d".toList then
    some ⟨⟨[]⟩⟩
  else if jsonStr =
      ("\x7b\"playerCaptionsTracklistRenderer\":\x7b\"captionTracks\":".toList ++
        "[\x7b\"baseUrl\":\"urlA\",\"languageCode\":\"en\"\x7d]\x7d\x7d".toList) then
    some ⟨⟨[⟨"urlA".toList, "en".toList⟩]⟩⟩
  else none

/-- The two-track document of the worked instances: `en` at `urlA`, then
`fr` at `urlB`. -/
def sampleTracks : CaptionsData :=
  ⟨⟨[⟨"urlA".toList, "en".toList⟩, ⟨"urlB".toList, "fr".toList⟩]⟩⟩

/-- A video identifier for the worked instances. -/
def sampleVideoID : Str := "dQw4w9WgXcQ".toList

/-- A CAPTCHA page: the CAPTCHA marker and nothing else of interest. -/
def captchaPage : Str := "<html><div class=\"g-recaptcha\"></div></html>".toList

/-- A page with the CAPTCHA marker and, behind it, a captions block whose
track list is empty. -/
def captchaCaptionsPage : Str :=
  "<div class=\"g-recaptcha\"></div>\"captions\":".toList ++
    "\x7b\"playerCaptionsTracklistRenderer\":\x7b\"captionTracks\":[]\x7d\x7d".toList ++
    ",\"videoDetails\":\x7b\x7d".toList

/-- A page with neither marker. -/
def removedPage : Str := "<html><body>gone</body></html>".toList

/-- A playable page without a captions block. -/
def disabledPage : Str := "\x7b\"playabilityStatus\":\x7b\"status\":\"OK\"\x7d\x7d".toList

/-- A playable page whose captions block has an empty track list. -/
def emptyTracksPage : Str :=
  "\x7b\"playabilityStatus\":\x7b\"status\":\"OK\"\x7d,\"captions\":".toList ++
    "\x7b\"playerCaptionsTracklistRenderer\":\x7b\"captionTracks\":[]\x7d\x7d".toList ++
    ",\"videoDetails\":\x7b\"videoId\":\"dQw4w9WgXcQ\"\x7d\x7d".toList

/-- A playable page whose captions block lists one track, `en` at `urlA`;
the block is spread over two lines. -/
def oneTrackPage : Str :=
  "\x7b\"playabilityStatus\":\x7b\"status\":\"OK\"\x7d,\"captions\":".toList ++
    "\x7b\"playerCaptionsTracklistRenderer\":\x7b\"captionTracks\":\n".toList ++
    "[\x7b\"baseUrl\":\"urlA\",\"languageCode\":\"en\"\x7d]\x7d\x7d".toList ++
    ",\"videoDetails\":\x7b\"videoId\":\"dQw4w9WgXcQ\"\x7d\x7d".toList

/-- A playable page whose captions block breaks off in the middle. -/
def brokenCaptionsPage : Str :=
  "\x7b\"playabilityStatus\":\x7b\"status\":\"OK\"\x7d,\"captions\":".toList ++
    "\x7b\"playerCaptionsTracklistRenderer\":".toList ++
    ",\"videoDetails\":\x7b\"videoId\":\"dQw4w9WgXcQ\"\x7d\x7d".toList

/-- The payload of the worked instance of C6: two elements, nothing around
them. -/
def sampleElements : List TextElement :=
  [⟨[], "0.5".toList, "2.0".toList, "Hello".toList⟩,
    ⟨[], "2.5".toList, "1.0".toList, "World".toList⟩]

/-- A payload without any `text` element. -/
def emptyTranscript : Str :=
  "<?xml version=\"1.0\" encoding=\"utf-8\" ?><transcript></transcript>".toList

/-- A string of 11 characters and 22 bytes. -/
def elevenAccents : Str := "ééééééééééé".toList

/-- A string of 6 characters and 11 bytes. -/
def elevenBytes : Str := "ééééé1".toList

/-- A client that answers every request with `oneTrackPage`. -/
def oneTrackPageClient : HTTPClient := fun _ _ => .response 200 (.ok oneTrackPage)

/-- A client that answers every request with `emptyTracksPage`. -/
def emptyTracksPageClient : HTTPClient := fun _ _ => .response 200 (.ok emptyTracksPage)

/-- A client that answers every request with status 404. -/
def notFoundClient : HTTPClient := fun _ _ => .response 404 (.ok [])

/-- A client that answers every request with `emptyTranscript`. -/
def emptyTranscriptClient : HTTPClient := fun _ _ => .response 200 (.ok emptyTranscript)

/-- A value of type `float64` other than an infinity or NaN: the number
`mantissa · 2 ^ exponent`, the mantissa odd, or both zero for the number 0. -/
structure Float64 where
  mantissa : Int
  exponent : Int
  deriving DecidableEq, Repr

/-- The `float64` zero. -/
def Float64.zero : Float64 := ⟨0, 0⟩

/-- A fragment of the conversion of a token (the method `convertFloat`, which
rests on `strconv.ParseFloat`): the tokens listed here get their values,
every other token is reported as an error. -/
def sampleConvertFloat (token : Str) : Option Float64 :=
  if token = "0.5".toList then some ⟨1, -1⟩
  else if token = "1.0".toList then some ⟨1, 0⟩
  else if token = "1.5".toList then some ⟨3, -1⟩
  else if token = "2.0".toList then some ⟨1, 1⟩
  else if token = "2.5".toList then some ⟨5, -1⟩
  else none

/-- The payload of the counterexample of C16: a number followed by `x`. -/
def trailingLetterElements : List TextElement :=
  [⟨[], "1.5x".toList, "2.0".toList, "Hi".toList⟩]

/-- A payload under a `transcript` element whose `start` and `dur` texts hold
no number for the scan: empty, `abc`, ` abc`, `null`, a newline and `1.5`,
and `error`. -/
def unreadableTranscript : Str :=
  ("<?xml version=\"1.0\" encoding=\"utf-8\" ?><transcript>".toList ++
    "<text start=\"\" dur=\"abc\">one</text>".toList) ++
  ("<text start=\" abc\" dur=\"null\">two</text>".toList ++
    "<text start=\"\n1.5\" dur=\"error\">three</text></transcript>".toList)

/-- The parts of the page of the worked instance of C17: the text in front of
the captions marker, the captions block (on two lines), and the text behind
the boundary, which holds another captions marker. -/
def blockPagePre : Str := "\x7b\"playabilityStatus\":\x7b\"status\":\"OK\"\x7d,".toList

/-- The captions block of the worked instance of C17. -/
def blockPageJSON : Str :=
  "\x7b\"playerCaptionsTracklistRenderer\":\x7b\"captionTracks\":\n".toList ++
    "[\x7b\"baseUrl\":\"urlA\",\"languageCode\":\"en\"\x7d]\x7d\x7d".toList

/-- The text behind the boundary in the worked instance of C17. -/
def blockPageRest : Str := "\":\x7b\"title\":\"\\\"captions\\\":\"\x7d,\"captions\":1\x7d".toList

/-! ## Facts about `Index`, `Contains` and `Split` -/

theorem genSplit_ne_nil (sep : Str) (n : Nat) (s : Str) : genSplit sep n s ≠ [] := by
  cases n with
  | zero => simp [genSplit]
  | succ n =>
    unfold genSplit
    cases Index s sep <;> simp

theorem Index_nil_left {sep : Str} (h : sep ≠ []) : Index [] sep = none := by
  simp [Index, h]

/-- Without an occurrence of the separator `Split` returns the string whole. -/
theorem Split_of_not_Contains {s sep : Str} (hsep : sep ≠ [])
    (h : Contains s sep = false) : Split s sep = [s] := by
  have hi : Index s sep = none := by
    simpa [Contains] using h
  unfold Split
  rw [if_neg hsep]
  cases hl : s.length with
  | zero => simp [genSplit]
  | succ n => simp [genSplit, hi]

/-- With an occurrence of the separator `Split` returns at least two parts. -/
theorem Split_length_of_Contains {s sep : Str} (hsep : sep ≠ [])
    (h : Contains s sep = true) : 1 < (Split s sep).length := by
  obtain ⟨m, hm⟩ : ∃ m, Index s sep = some m := by
    simpa [Contains, Option.isSome_iff_exists] using h
  unfold Split
  rw [if_neg hsep]
  cases hl : s.length with
  | zero =>
    have hs : s = [] := List.length_eq_zero.mp hl
    subst hs
    rw [Index_nil_left hsep] at hm
    cases hm
  | succ n =>
    have hne := genSplit_ne_nil sep n (s.drop (m + sep.length))
    simp only [genSplit, hm, List.length_cons]
    have : 0 < (genSplit sep n (s.drop (m + sep.length))).length :=
      List.length_pos.mpr hne
    omega

theorem captionsMarker_ne_nil : captionsMarker ≠ [] := by decide

/-- The outcome of `parseCaptionsData` on a page without the captions marker. -/
theorem parseCaptionsData_of_no_marker (unmarshal : Str → Option CaptionsData)
    (pageContent videoID : Str) (h : Contains pageContent captionsMarker = false) :
    parseCaptionsData unmarshal pageContent videoID =
      .error (handlePageErrors pageContent videoID) := by
  simp [parseCaptionsData, Split_of_not_Contains captionsMarker_ne_nil h]

/-- The outcome of `parseCaptionsData` on a page with the captions marker. -/
theorem parseCaptionsData_of_marker (unmarshal : Str → Option CaptionsData)
    (pageContent videoID : Str) (h : Contains pageContent captionsMarker = true) :
    parseCaptionsData unmarshal pageContent videoID =
      match unmarshal (captionsJSONText ((Split pageContent captionsMarker).getD 1 [])) with
      | none => .error (NewTranscriptDisabledError videoID)
      | some captionsJSON =>
        if captionsJSON.PlayerCaptionsTracklistRenderer.CaptionTracks.length = 0 then
          .error (NewNoTranscriptError videoID)
        else .ok captionsJSON := by
  have hlen := Split_length_of_Contains captionsMarker_ne_nil h
  simp only [parseCaptionsData, extractCaptionsJSON]
  rw [if_neg (by omega)]

/-! ## The captions block: claims C1, C2, C9, C10 -/

/-- C1, as amended: for every page text that contains the CAPTCHA marker and
does not contain the captions marker, and for every video identifier,
`parseCaptionsData` fails with `RateLimitError`, whatever the decoder and
whatever else the page contains. -/
theorem C1_rate_limit_without_captions_marker (unmarshal : Str → Option CaptionsData)
    (pageContent videoID : Str)
    (hcaptcha : Contains pageContent recaptchaMarker = true)
    (hnone : Contains pageContent captionsMarker = false) :
    parseCaptionsData unmarshal pageContent videoID = .error NewRateLimitError := by
  rw [parseCaptionsData_of_no_marker unmarshal pageContent videoID hnone]
  simp [handlePageErrors, hcaptcha]

/-- C1, worked instance: the CAPTCHA page is answered with `RateLimitError`. -/
theorem C1_rate_limit_without_captions_marker_witness :
    Contains captchaPage recaptchaMarker = true ∧
      Contains captchaPage captionsMarker = false ∧
      parseCaptionsData sampleUnmarshal captchaPage sampleVideoID = .error NewRateLimitError :=
  ⟨by decide, by decide,
    C1_rate_limit_without_captions_marker sampleUnmarshal captchaPage sampleVideoID
      (by decide) (by decide)⟩

/-- C1, as stated, fails: `captchaCaptionsPage` contains the CAPTCHA marker
and the captions marker, and `parseCaptionsData` answers it with
`NoTranscriptError`; whatever the decoder does on this page, the answer is
not `RateLimitError`. -/
theorem C1_counterexample_captcha_with_captions :
    Contains captchaCaptionsPage recaptchaMarker = true ∧
      Contains captchaCaptionsPage captionsMarker = true ∧
      parseCaptionsData sampleUnmarshal captchaCaptionsPage sampleVideoID =
        .error (NewNoTranscriptError sampleVideoID) ∧
      ∀ unmarshal : Str → Option CaptionsData,
        parseCaptionsData unmarshal captchaCaptionsPage sampleVideoID ≠
          .error NewRateLimitError := by
  refine ⟨by decide, by decide, by decide, ?_⟩
  intro unmarshal
  rw [parseCaptionsData_of_marker unmarshal captchaCaptionsPage sampleVideoID (by decide)]
  cases unmarshal (captionsJSONText ((Split captchaCaptionsPage captionsMarker).getD 1 [])) with
  | none => simp [NewTranscriptDisabledError, NewRateLimitError]
  | some doc =>
    by_cases hd : doc.PlayerCaptionsTracklistRenderer.CaptionTracks.length = 0
    · simp only [hd, if_true]
      simp [NewNoTranscriptError, NewRateLimitError]
    · simp only [hd, if_false]
      simp

/-- C2: on a page text without the captions marker `parseCaptionsData`
fails, with `RateLimitError` if the page contains the CAPTCHA marker,
otherwise with `VideoUnavailableError` for the given identifier if the page
lacks the playability marker, otherwise with `TranscriptDisabledError` for
the given identifier; these are the only outcomes for such a page. -/
theorem C2_error_kind_without_captions_marker (unmarshal : Str → Option CaptionsData)
    (pageContent videoID : Str) (hnone : Contains pageContent captionsMarker = false) :
    (Contains pageContent recaptchaMarker = true →
        parseCaptionsData unmarshal pageContent videoID = .error NewRateLimitError) ∧
      (Contains pageContent recaptchaMarker = false →
        Contains pageContent playabilityMarker = false →
        parseCaptionsData unmarshal pageContent videoID =
          .error (NewVideoUnavailableError videoID)) ∧
      (Contains pageContent recaptchaMarker = false →
        Contains pageContent playabilityMarker = true →
        parseCaptionsData unmarshal pageContent videoID =
          .error (NewTranscriptDisabledError videoID)) ∧
      (parseCaptionsData unmarshal pageContent videoID = .error NewRateLimitError ∨
        parseCaptionsData unmarshal pageContent videoID =
          .error (NewVideoUnavailableError videoID) ∨
        parseCaptionsData unmarshal pageContent videoID =
          .error (NewTranscriptDisabledError videoID)) ∧
      (∃ m, NewVideoUnavailableError videoID = .VideoUnavailableError m videoID) ∧
      (∃ m, NewTranscriptDisabledError videoID = .TranscriptDisabledError m videoID) := by
  rw [parseCaptionsData_of_no_marker unmarshal pageContent videoID hnone]
  refine ⟨?_, ?_, ?_, ?_, ⟨_, rfl⟩, ⟨_, rfl⟩⟩
  · intro h
    simp [handlePageErrors, h]
  · intro h1 h2
    simp [handlePageErrors, h1, h2]
  · intro h1 h2
    simp [handlePageErrors, h1, h2]
  · cases h1 : Contains pageContent recaptchaMarker <;>
      cases h2 : Contains pageContent playabilityMarker <;>
      simp [handlePageErrors, h1, h2]

/-- C2, worked instance: a page with neither marker is answered with
`VideoUnavailableError`, a playable page without captions block with
`TranscriptDisabledError`. -/
theorem C2_error_kind_without_captions_marker_witness :
    parseCaptionsData sampleUnmarshal removedPage sampleVideoID =
        .error (NewVideoUnavailableError sampleVideoID) ∧
      parseCaptionsData sampleUnmarshal disabledPage sampleVideoID =
        .error (NewTranscriptDisabledError sampleVideoID) :=
  ⟨(C2_error_kind_without_captions_marker sampleUnmarshal removedPage sampleVideoID
      (by decide)).2.1 (by decide) (by decide),
    (C2_error_kind_without_captions_marker sampleUnmarshal disabledPage sampleVideoID
      (by decide)).2.2.1 (by decide) (by decide)⟩

/-- C9: when the page text contains the captions marker and the isolated
captions block decodes to a document whose track list is empty,
`parseCaptionsData` fails with `NoTranscriptError` for the given identifier;
and every document that `parseCaptionsData` returns has at least one track. -/
theorem C9_empty_track_list_is_no_transcript (unmarshal : Str → Option CaptionsData)
    (pageContent videoID : Str) :
    (∀ doc : CaptionsData,
        Contains pageContent captionsMarker = true →
        unmarshal (captionsJSONText ((Split pageContent captionsMarker).getD 1 [])) =
          some doc →
        doc.PlayerCaptionsTracklistRenderer.CaptionTracks = [] →
        parseCaptionsData unmarshal pageContent videoID =
            .error (NewNoTranscriptError videoID) ∧
          ∃ m, NewNoTranscriptError videoID = .NoTranscriptError m videoID) ∧
      (∀ doc : CaptionsData,
        parseCaptionsData unmarshal pageContent videoID = .ok doc →
        doc.PlayerCaptionsTracklistRenderer.CaptionTracks ≠ []) := by
  constructor
  · intro doc hmarker hdoc hempty
    refine ⟨?_, ⟨_, rfl⟩⟩
    rw [parseCaptionsData_of_marker unmarshal pageContent videoID hmarker, hdoc]
    simp [hempty]
  · intro doc hok
    cases hc : Contains pageContent captionsMarker with
    | false =>
      rw [parseCaptionsData_of_no_marker unmarshal pageContent videoID hc] at hok
      cases hok
    | true =>
      rw [parseCaptionsData_of_marker unmarshal pageContent videoID hc] at hok
      cases hu : unmarshal (captionsJSONText ((Split pageContent captionsMarker).getD 1 []))
        with
      | none =>
        rw [hu] at hok
        cases hok
      | some d =>
        rw [hu] at hok
        by_cases hd : d.PlayerCaptionsTracklistRenderer.CaptionTracks.length = 0
        · simp [hd] at hok
        · simp only [hd, if_false] at hok
          cases hok
          intro hnil
          exact hd (by simp [hnil])

/-- C9, worked instance: `emptyTracksPage` is answered with
`NoTranscriptError`, and the document returned for `oneTrackPage` has a
track. -/
theorem C9_empty_track_list_is_no_transcript_witness :
    parseCaptionsData sampleUnmarshal emptyTracksPage sampleVideoID =
        .error (NewNoTranscriptError sampleVideoID) ∧
      parseCaptionsData sampleUnmarshal oneTrackPage sampleVideoID =
        .ok ⟨⟨[⟨"urlA".toList, "en".toList⟩]⟩⟩ ∧
      (⟨⟨[⟨"urlA".toList, "en".toList⟩]⟩⟩ :
        CaptionsData).PlayerCaptionsTracklistRenderer.CaptionTracks ≠ [] :=
  ⟨((C9_empty_track_list_is_no_transcript sampleUnmarshal emptyTracksPage sampleVideoID).1
      ⟨⟨[]⟩⟩ (by decide) (by decide) rfl).1,
    by decide,
    (C9_empty_track_list_is_no_transcript sampleUnmarshal oneTrackPage sampleVideoID).2
      ⟨⟨[⟨"urlA".toList, "en".toList⟩]⟩⟩ (by decide)⟩

/-- C10: when the page text contains the captions marker and the decoder
reports an error for the isolated captions block, `parseCaptionsData` fails
with `TranscriptDisabledError` for the given identifier, the very error it
returns for a playable page (playability marker, no CAPTCHA marker) that has
no captions marker. -/
theorem C10_decode_failure_is_transcript_disabled (unmarshal : Str → Option CaptionsData)
    (pageContent videoID : Str)
    (hmarker : Contains pageContent captionsMarker = true)
    (hfail : unmarshal (captionsJSONText ((Split pageContent captionsMarker).getD 1 [])) =
      none) :
    parseCaptionsData unmarshal pageContent videoID =
        .error (NewTranscriptDisabledError videoID) ∧
      (∃ m, NewTranscriptDisabledError videoID = .TranscriptDisabledError m videoID) ∧
      ∀ playable : Str,
        Contains playable captionsMarker = false →
        Contains playable recaptchaMarker = false →
        Contains playable playabilityMarker = true →
        parseCaptionsData unmarshal playable videoID =
          parseCaptionsData unmarshal pageContent videoID := by
  have hpage : parseCaptionsData unmarshal pageContent videoID =
      .error (NewTranscriptDisabledError videoID) := by
    rw [parseCaptionsData_of_marker unmarshal pageContent videoID hmarker, hfail]
  refine ⟨hpage, ⟨_, rfl⟩, ?_⟩
  intro playable h1 h2 h3
  rw [hpage, parseCaptionsData_of_no_marker unmarshal playable videoID h1]
  simp [handlePageErrors, h2, h3]

/-- C10, worked instance: the captions block of `brokenCaptionsPage` breaks
off behind a colon, and the page is answered like `disabledPage`. -/
theorem C10_decode_failure_is_transcript_disabled_witness :
    captionsJSONText ((Split brokenCaptionsPage captionsMarker).getD 1 []) =
        "\x7b\"playerCaptionsTracklistRenderer\":".toList ∧
      parseCaptionsData sampleUnmarshal brokenCaptionsPage sampleVideoID =
        .error (NewTranscriptDisabledError sampleVideoID) ∧
      parseCaptionsData sampleUnmarshal disabledPage sampleVideoID =
        parseCaptionsData sampleUnmarshal brokenCaptionsPage sampleVideoID :=
  ⟨by decide,
    (C10_decode_failure_is_transcript_disabled sampleUnmarshal brokenCaptionsPage
      sampleVideoID (by decide) (by decide)).1,
    (C10_decode_failure_is_transcript_disabled sampleUnmarshal brokenCaptionsPage
      sampleVideoID (by decide) (by decide)).2.2 disabledPage (by decide) (by decide)
      (by decide)⟩

/-! ## Track selection: claims C3, C4, C5 -/

/-- The first element of a list that satisfies a test, with the elements
before it, none of which satisfies the test. -/
theorem find_first_split {α : Type} (p : α → Bool) (l : List α) (h : ∃ t ∈ l, p t = true) :
    ∃ pre t post, l = pre ++ t :: post ∧ (∀ u ∈ pre, p u = false) ∧ p t = true ∧
      l.find? p = some t := by
  induction l with
  | nil =>
    obtain ⟨t, ht, _⟩ := h
    cases ht
  | cons a l ih =>
    cases hpa : p a with
    | true => exact ⟨[], a, l, rfl, by simp, hpa, by simp [List.find?, hpa]⟩
    | false =>
      have h2 : ∃ t ∈ l, p t = true := by
        obtain ⟨t, ht, hpt⟩ := h
        rcases List.mem_cons.mp ht with rfl | hmem
        · rw [hpa] at hpt
          cases hpt
        · exact ⟨t, hmem, hpt⟩
      obtain ⟨pre, t, post, hl, hpre, hpt, hfind⟩ := ih h2
      refine ⟨a :: pre, t, post, by simp [hl], ?_, hpt, by simp [List.find?, hpa, hfind]⟩
      intro u hu
      rcases List.mem_cons.mp hu with rfl | hmem
      · exact hpa
      · exact hpre u hmem

/-- C3: for a non-empty requested language that is the language code of no
track, `getTranscriptURL` fails with a `LanguageNotFoundError` whose `Lang`
is the requested language, whose `VideoID` is the given identifier and whose
`AvailableLangs` is the list of the language codes of all tracks, in the
order of the track list. -/
theorem C3_language_not_found (captionsData : CaptionsData) (videoID requestedLang : Str)
    (hlang : requestedLang ≠ [])
    (hno : ∀ t ∈ captionsData.PlayerCaptionsTracklistRenderer.CaptionTracks,
      t.LanguageCode ≠ requestedLang) :
    ∃ m, getTranscriptURL captionsData videoID requestedLang =
      .error (.LanguageNotFoundError m requestedLang
        (captionsData.PlayerCaptionsTracklistRenderer.CaptionTracks.map
          (fun t => t.LanguageCode)) videoID) := by
  have hany : captionsData.PlayerCaptionsTracklistRenderer.CaptionTracks.any
      (fun track => track.LanguageCode == requestedLang) = false := by
    rw [List.any_eq_false]
    intro t ht
    simpa using hno t ht
  simp only [getTranscriptURL, validateLanguageAvailability, hany, if_pos hlang,
    NewLanguageNotFoundError]
  exact ⟨_, rfl⟩

/-- C3, worked instance: with the tracks `en` at `urlA` and `fr` at `urlB`,
the request for `es` fails and lists `en`, `fr`; so does the request for
`EN`, the comparison being case-sensitive. -/
theorem C3_language_not_found_witness :
    (∃ m, getTranscriptURL sampleTracks sampleVideoID "es".toList =
        .error (.LanguageNotFoundError m "es".toList ["en".toList, "fr".toList]
          sampleVideoID)) ∧
      ∃ m, getTranscriptURL sampleTracks sampleVideoID "EN".toList =
        .error (.LanguageNotFoundError m "EN".toList ["en".toList, "fr".toList]
          sampleVideoID) :=
  ⟨C3_language_not_found sampleTracks sampleVideoID "es".toList (by decide) (by decide),
    C3_language_not_found sampleTracks sampleVideoID "EN".toList (by decide) (by decide)⟩

/-- C4: for a non-empty requested language that is the language code of at
least one track, `getTranscriptURL` succeeds with the base URL of the first
track of the list that has this language code, and with the requested
language as effective language. -/
theorem C4_first_matching_track (captionsData : CaptionsData) (videoID requestedLang : Str)
    (hlang : requestedLang ≠ [])
    (hsome : ∃ t ∈ captionsData.PlayerCaptionsTracklistRenderer.CaptionTracks,
      t.LanguageCode = requestedLang) :
    ∃ pre t post,
      captionsData.PlayerCaptionsTracklistRenderer.CaptionTracks = pre ++ t :: post ∧
      (∀ u ∈ pre, u.LanguageCode ≠ requestedLang) ∧
      t.LanguageCode = requestedLang ∧
      getTranscriptURL captionsData videoID requestedLang =
        .ok (t.BaseURL, requestedLang) := by
  have hsome2 : ∃ t ∈ captionsData.PlayerCaptionsTracklistRenderer.CaptionTracks,
      (fun t : CaptionTrack => t.LanguageCode == requestedLang) t = true := by
    obtain ⟨t, ht, hcode⟩ := hsome
    exact ⟨t, ht, by simp [hcode]⟩
  obtain ⟨pre, t, post, hl, hpre, hpt, hfind⟩ := find_first_split _ _ hsome2
  have hcode : t.LanguageCode = requestedLang := by simpa using hpt
  refine ⟨pre, t, post, hl, ?_, hcode, ?_⟩
  · intro u hu
    simpa using hpre u hu
  · have hany : captionsData.PlayerCaptionsTracklistRenderer.CaptionTracks.any
        (fun track => track.LanguageCode == requestedLang) = true := by
      rw [List.any_eq_true]
      obtain ⟨u, hu, hcu⟩ := hsome2
      exact ⟨u, hu, hcu⟩
    simp only [getTranscriptURL, validateLanguageAvailability, hany, if_pos hlang,
      selectTrack, hfind, hcode]
    rfl

/-- C4, worked instance: with the tracks `en` at `urlA` and `fr` at `urlB`,
the request for `fr` gives `urlB` and `fr`; and of two `fr` tracks the one
listed first is taken. -/
theorem C4_first_matching_track_witness :
    (∃ pre t post,
        sampleTracks.PlayerCaptionsTracklistRenderer.CaptionTracks = pre ++ t :: post ∧
        (∀ u ∈ pre, u.LanguageCode ≠ "fr".toList) ∧
        t.LanguageCode = "fr".toList ∧
        getTranscriptURL sampleTracks sampleVideoID "fr".toList =
          .ok (t.BaseURL, "fr".toList)) ∧
      getTranscriptURL sampleTracks sampleVideoID "fr".toList =
        .ok ("urlB".toList, "fr".toList) ∧
      getTranscriptURL
          ⟨⟨[⟨"urlA".toList, "en".toList⟩, ⟨"urlB".toList, "fr".toList⟩,
            ⟨"urlC".toList, "fr".toList⟩]⟩⟩ sampleVideoID "fr".toList =
        .ok ("urlB".toList, "fr".toList) :=
  ⟨C4_first_matching_track sampleTracks sampleVideoID "fr".toList (by decide)
      ⟨⟨"urlB".toList, "fr".toList⟩, by decide, rfl⟩,
    by decide, by decide⟩

/-- C5: without a requested language and with a non-empty track list,
`getTranscriptURL` succeeds with the base URL and the language code of the
first track of the list. -/
theorem C5_first_track_without_language (captionsData : CaptionsData) (videoID : Str)
    (t : CaptionTrack) (rest : List CaptionTrack)
    (htracks : captionsData.PlayerCaptionsTracklistRenderer.CaptionTracks = t :: rest) :
    getTranscriptURL captionsData videoID [] = .ok (t.BaseURL, t.LanguageCode) := by
  simp [getTranscriptURL, selectTrack, htracks]

/-- C5, worked instance: with the tracks `en` at `urlA` and `fr` at `urlB`
and no requested language the result is `urlA` and `en`. -/
theorem C5_first_track_without_language_witness :
    getTranscriptURL sampleTracks sampleVideoID [] = .ok ("urlA".toList, "en".toList) :=
  C5_first_track_without_language sampleTracks sampleVideoID ⟨"urlA".toList, "en".toList⟩
    [⟨"urlB".toList, "fr".toList⟩] rfl

/-! ## Facts about the backtracking search -/

/-- The search `c*` first tries the longest run of class characters. -/
theorem starRests_append (p : Char → Bool) (m x : Str) (hm : ∀ c ∈ m, p c = true)
    (hx : ∀ c ∈ x.head?, p c = false) : ∃ more, starRests p (m ++ x) = x :: more := by
  induction m with
  | nil =>
    cases x with
    | nil => exact ⟨[], rfl⟩
    | cons c t =>
      have hc : p c = false := hx c (by simp)
      exact ⟨[], by simp [starRests, hc]⟩
  | cons a m ih =>
    have ha : p a = true := hm a (by simp)
    obtain ⟨more, hmore⟩ := ih (fun c hc => hm c (by simp [hc]))
    exact ⟨more ++ [a :: (m ++ x)], by simp [starRests, ha, hmore]⟩

/-- Every remainder of `c*` is the input without a run of class characters. -/
theorem starRests_sound (p : Char → Bool) (s r : Str) (h : r ∈ starRests p s) :
    ∃ m, s = m ++ r ∧ ∀ c ∈ m, p c = true := by
  induction s with
  | nil =>
    simp [starRests] at h
    exact ⟨[], by simp [h]⟩
  | cons a s ih =>
    cases ha : p a with
    | false =>
      simp [starRests, ha] at h
      exact ⟨[], by simp [h]⟩
    | true =>
      simp only [starRests, ha, if_true, List.mem_append, List.mem_singleton] at h
      rcases h with h | h
      · obtain ⟨m, hs, hm⟩ := ih h
        refine ⟨a :: m, by simp [hs], ?_⟩
        intro c hc
        rcases List.mem_cons.mp hc with rfl | hc
        · exact ha
        · exact hm c hc
      · exact ⟨[], by simp [h]⟩

theorem head_run_lit (l x : Str) (caps : List Str) :
    ((Regex.lit l).run (l ++ x) caps).head? = some (x, caps) := by
  have hp : l.isPrefixOf (l ++ x) = true := by
    rw [List.isPrefixOf_iff_prefix]
    exact List.prefix_append l x
  simp [Regex.run, hp]

theorem head_run_seq {a b : Regex} {s : Str} {caps : List Str} {y z : Str × List Str}
    (ha : (a.run s caps).head? = some y) (hb : (b.run y.1 y.2).head? = some z) :
    ((Regex.seq a b).run s caps).head? = some z := by
  cases hra : a.run s caps with
  | nil => simp [hra] at ha
  | cons y1 ys =>
    rw [hra] at ha
    simp only [List.head?_cons, Option.some.injEq] at ha
    subst ha
    cases hrb : b.run y1.1 y1.2 with
    | nil => simp [hrb] at hb
    | cons z1 zs =>
      rw [hrb] at hb
      simp only [List.head?_cons, Option.some.injEq] at hb
      subst hb
      simp [Regex.run, hra, hrb]

theorem head_run_group_star (i : Nat) (p : Char → Bool) (m x : Str) (caps : List Str)
    (hm : ∀ c ∈ m, p c = true) (hx : ∀ c ∈ x.head?, p c = false) :
    ((Regex.group i (.star p)).run (m ++ x) caps).head? = some (x, caps.set i m) := by
  obtain ⟨more, hmore⟩ := starRests_append p m x hm hx
  simp [Regex.run, hmore]

theorem run_render (e : TextElement) (rest : Str) (caps : List Str)
    (hs : '"' ∉ e.start) (hd : '"' ∉ e.dur) (ht : '<' ∉ e.text) :
    (TranscriptXMLRegex.run (e.render ++ rest) caps).head? =
      some (rest, ((caps.set 1 e.start).set 2 e.dur).set 3 e.text) := by
  have hshape : e.render ++ rest =
      "<text start=\"".toList ++ (e.start ++ ("\" dur=\"".toList ++ (e.dur ++
        ("\">".toList ++ (e.text ++ ("</text>".toList ++ rest)))))) := by
    simp [TextElement.render, List.append_assoc]
  have hne : ∀ (q : Char) (m : Str), q ∉ m → ∀ c ∈ m, (fun c => c != q) c = true := by
    intro q m hq c hc
    have : c ≠ q := fun h => hq (h ▸ hc)
    simpa using this
  rw [hshape]
  unfold TranscriptXMLRegex
  refine head_run_seq (head_run_lit _ _ _) ?_
  refine head_run_seq (head_run_group_star 1 _ e.start _ _ (hne _ _ hs) (by simp)) ?_
  refine head_run_seq (head_run_lit _ _ _) ?_
  refine head_run_seq (head_run_group_star 2 _ e.dur _ _ (hne _ _ hd) (by simp)) ?_
  refine head_run_seq (head_run_lit _ _ _) ?_
  refine head_run_seq (head_run_group_star 3 _ e.text _ _ (hne _ _ ht) (by simp)) ?_
  exact head_run_lit _ _ _

theorem run_group (i : Nat) (a : Regex) (s : Str) (caps : List Str) :
    (Regex.group i a).run s caps =
      (a.run s caps).map (fun x => (x.1, x.2.set i (s.take (s.length - x.1.length)))) := by
  rw [Regex.run]

theorem matchAt_render (e : TextElement) (rest : Str)
    (hs : '"' ∉ e.start) (hd : '"' ∉ e.dur) (ht : '<' ∉ e.text) :
    TranscriptXMLRegex.matchAt 3 (e.render ++ rest) =
      some (rest, [e.render, e.start, e.dur, e.text]) := by
  have h := run_render e rest (List.replicate (3 + 1) []) hs hd ht
  cases hr : TranscriptXMLRegex.run (e.render ++ rest) (List.replicate (3 + 1) []) with
  | nil =>
    rw [hr] at h
    cases h
  | cons y ys =>
    rw [hr] at h
    simp only [List.head?_cons, Option.some.injEq] at h
    subst h
    rw [Regex.matchAt, run_group, hr]
    simp [List.replicate]


theorem run_seq (a b : Regex) (s : Str) (caps : List Str) :
    (Regex.seq a b).run s caps = (a.run s caps).flatMap (fun x => b.run x.1 x.2) := by
  rw [Regex.run]

theorem matchAt_nil : TranscriptXMLRegex.matchAt 3 [] = none := by decide

/-- No match of `TranscriptXMLRegex` starts at a character other than `<`. -/
theorem matchAt_of_head_ne (c : Char) (t : Str) (hc : c ≠ '<') :
    TranscriptXMLRegex.matchAt 3 (c :: t) = none := by
  have hc2 : ('<' == c) = false := by
    simpa using fun h : '<' = c => hc h.symm
  rw [Regex.matchAt, run_group, TranscriptXMLRegex, run_seq]
  simp [Regex.run, List.isPrefixOf, hc2]

/-- The search for the leftmost match passes over text without `<`. -/
theorem find_skip (f x : Str) (hf : '<' ∉ f) :
    TranscriptXMLRegex.find 3 (f ++ x) = TranscriptXMLRegex.find 3 x := by
  induction f with
  | nil => rfl
  | cons c f ih =>
    have hc : c ≠ '<' := fun h => hf (by simp [h])
    have hf2 : '<' ∉ f := fun h => hf (by simp [h])
    show TranscriptXMLRegex.find 3 (c :: (f ++ x)) = _
    rw [Regex.find, matchAt_of_head_ne c (f ++ x) hc]
    exact ih hf2

theorem find_of_no_lt (f : Str) (hf : '<' ∉ f) : TranscriptXMLRegex.find 3 f = none := by
  have h := find_skip f [] hf
  rw [List.append_nil] at h
  rw [h]
  simp [Regex.find, matchAt_nil]

theorem render_ne_nil (e : TextElement) : e.render ≠ [] := by
  simp [TextElement.render]

theorem find_render (e : TextElement) (rest : Str)
    (hs : '"' ∉ e.start) (hd : '"' ∉ e.dur) (ht : '<' ∉ e.text) :
    TranscriptXMLRegex.find 3 (e.render ++ rest) =
      some (rest, [e.render, e.start, e.dur, e.text]) := by
  have hm := matchAt_render e rest hs hd ht
  cases hsh : e.render ++ rest with
  | nil =>
    have := render_ne_nil e
    simp at hsh
    exact absurd hsh.1 this
  | cons c t =>
    rw [hsh] at hm
    simp [Regex.find, hm]

theorem allMatches_timedText (es : List TextElement) (closing : Str)
    (hes : ∀ e ∈ es, '<' ∉ e.before ∧ '"' ∉ e.start ∧ '"' ∉ e.dur ∧ '<' ∉ e.text) (hclosing : '<' ∉ closing) :
    ∀ (fuel : Nat) (prevHere : Bool), es.length ≤ fuel →
      allMatches TranscriptXMLRegex 3 fuel (timedText es closing) prevHere =
        es.map TextElement.submatches := by
  induction es with
  | nil =>
    intro fuel prevHere _
    cases fuel with
    | zero => rfl
    | succ k => simp [allMatches, timedText, find_of_no_lt closing hclosing]
  | cons e es ih =>
    intro fuel prevHere hfuel
    cases fuel with
    | zero => simp at hfuel
    | succ k =>
      obtain ⟨hb, hs, hd, ht⟩ := hes e (by simp)
      have hfind : TranscriptXMLRegex.find 3 (timedText (e :: es) closing) =
          some (timedText es closing, e.submatches) := by
        rw [timedText, List.append_assoc, find_skip _ _ hb]
        exact find_render e _ hs hd ht
      have hlen : (timedText es closing).length ≠ (timedText (e :: es) closing).length := by
        have := List.length_pos.mpr (render_ne_nil e)
        simp only [timedText, List.length_append]
        omega
      have ihk := ih (fun e' he' => hes e' (by simp [he'])) k true
        (by simp at hfuel; omega)
      simp [allMatches, hfind, hlen, ihk]

theorem length_le_timedText (es : List TextElement) (closing : Str) :
    es.length ≤ (timedText es closing).length := by
  induction es with
  | nil => simp
  | cons e es ih =>
    have := List.length_pos.mpr (render_ne_nil e)
    simp only [timedText, List.length_append, List.length_cons]
    omega

theorem FindAllStringSubmatch_timedText (es : List TextElement) (closing : Str)
    (hes : ∀ e ∈ es, '<' ∉ e.before ∧ '"' ∉ e.start ∧ '"' ∉ e.dur ∧ '<' ∉ e.text) (hclosing : '<' ∉ closing) :
    FindAllStringSubmatch TranscriptXMLRegex 3 (timedText es closing) =
      es.map TextElement.submatches := by
  have := length_le_timedText es closing
  exact allMatches_timedText es closing hes hclosing _ false (by omega)


/-- Soundness of the search: whatever `run` finds is the input without a
prefix that the expression matches. -/
theorem run_sound (re : Regex) :
    ∀ (s : Str) (caps : List Str) (x : Str × List Str), x ∈ re.run s caps →
      ∃ m, s = m ++ x.1 ∧ re.Matches m := by
  induction re with
  | lit l =>
    intro s caps x hx
    by_cases hp : l.isPrefixOf s = true
    · simp only [Regex.run, hp, if_true, List.mem_singleton] at hx
      obtain ⟨t, ht⟩ := List.isPrefixOf_iff_prefix.mp hp
      subst hx
      subst ht
      exact ⟨l, by simp, rfl⟩
    · simp [Regex.run, hp] at hx
  | cls p =>
    intro s caps x hx
    cases s with
    | nil => simp [Regex.run] at hx
    | cons c t =>
      by_cases hc : p c = true
      · simp only [Regex.run, hc, if_true, List.mem_singleton] at hx
        subst hx
        exact ⟨[c], rfl, c, rfl, hc⟩
      · simp [Regex.run, hc] at hx
  | star p =>
    intro s caps x hx
    simp only [Regex.run, List.mem_map] at hx
    obtain ⟨r, hr, rfl⟩ := hx
    obtain ⟨m, hs, hm⟩ := starRests_sound p s r hr
    exact ⟨m, hs, hm⟩
  | plus p =>
    intro s caps x hx
    cases s with
    | nil => simp [Regex.run] at hx
    | cons c t =>
      by_cases hc : p c = true
      · simp only [Regex.run, hc, if_true, List.mem_map] at hx
        obtain ⟨r, hr, rfl⟩ := hx
        obtain ⟨m, hs, hm⟩ := starRests_sound p t r hr
        refine ⟨c :: m, by simp [hs], by simp, ?_⟩
        intro d hd
        rcases List.mem_cons.mp hd with rfl | hd
        · exact hc
        · exact hm d hd
      · simp [Regex.run, hc] at hx
  | rep p n =>
    intro s caps x hx
    by_cases hc : (s.take n).length = n ∧ (s.take n).all p = true
    · simp only [Regex.run, hc, and_self, if_true, List.mem_singleton] at hx
      subst hx
      refine ⟨s.take n, by simp, hc.1, ?_⟩
      exact List.all_eq_true.mp hc.2
    · simp only [Regex.run, if_neg hc] at hx
      cases hx
  | seq a b iha ihb =>
    intro s caps x hx
    simp only [Regex.run, List.mem_flatMap] at hx
    obtain ⟨y, hy, hxy⟩ := hx
    obtain ⟨m₁, hs₁, hm₁⟩ := iha s caps y hy
    obtain ⟨m₂, hs₂, hm₂⟩ := ihb y.1 y.2 x hxy
    exact ⟨m₁ ++ m₂, by rw [hs₁, hs₂, List.append_assoc], m₁, m₂, rfl, hm₁, hm₂⟩
  | alt a b iha ihb =>
    intro s caps x hx
    simp only [Regex.run, List.mem_append] at hx
    rcases hx with hx | hx
    · obtain ⟨m, hs, hm⟩ := iha s caps x hx
      exact ⟨m, hs, Or.inl hm⟩
    · obtain ⟨m, hs, hm⟩ := ihb s caps x hx
      exact ⟨m, hs, Or.inr hm⟩
  | opt a iha =>
    intro s caps x hx
    simp only [Regex.run, List.mem_append, List.mem_singleton] at hx
    rcases hx with hx | hx
    · obtain ⟨m, hs, hm⟩ := iha s caps x hx
      exact ⟨m, hs, Or.inl hm⟩
    · subst hx
      exact ⟨[], rfl, Or.inr rfl⟩
  | group i a iha =>
    intro s caps x hx
    simp only [Regex.run, List.mem_map] at hx
    obtain ⟨y, hy, rfl⟩ := hx
    obtain ⟨m, hs, hm⟩ := iha s caps y hy
    exact ⟨m, hs, hm⟩

/-- A match found at the head of the input is a prefix that the expression
matches. -/
theorem matchAt_sound (re : Regex) (n : Nat) (s : Str) (x : Str × List Str)
    (h : re.matchAt n s = some x) : ∃ m, s = m ++ x.1 ∧ re.Matches m := by
  have hmem : x ∈ (Regex.group 0 re).run s (List.replicate (n + 1) []) :=
    List.mem_of_mem_head? h
  exact run_sound (.group 0 re) s _ x hmem

/-- Where no part of the input is matched by the expression, the search
finds nothing. -/
theorem find_none_of_no_match (re : Regex) (n : Nat) (s : Str)
    (hno : ∀ a m b, s = a ++ m ++ b → ¬ re.Matches m) : re.find n s = none := by
  induction s with
  | nil =>
    rw [Regex.find]
    cases hm : re.matchAt n [] with
    | none => rfl
    | some x =>
      obtain ⟨m, hs, hmatch⟩ := matchAt_sound re n [] x hm
      exact absurd hmatch (hno [] m x.1 (by simpa using hs))
  | cons c t ih =>
    rw [Regex.find]
    cases hm : re.matchAt n (c :: t) with
    | some x =>
      obtain ⟨m, hs, hmatch⟩ := matchAt_sound re n (c :: t) x hm
      exact absurd hmatch (hno [] m x.1 (by simpa using hs))
    | none =>
      exact ih (fun a m b hab => hno (c :: a) m b (by simp [hab]))

theorem FindAllStringSubmatch_of_no_match (re : Regex) (n : Nat) (s : Str)
    (hno : ∀ a m b, s = a ++ m ++ b → ¬ re.Matches m) :
    FindAllStringSubmatch re n s = [] := by
  simp [FindAllStringSubmatch, allMatches, find_none_of_no_match re n s hno]

/-- The texts that `TranscriptXMLRegex` matches are the rendered elements
whose `start` and `dur` have no quote and whose text has no `<`. -/
theorem Matches_TranscriptXMLRegex (m : Str) :
    TranscriptXMLRegex.Matches m ↔
      ∃ e : TextElement, m = e.render ∧ '"' ∉ e.start ∧ '"' ∉ e.dur ∧ '<' ∉ e.text := by
  constructor
  · intro h
    simp only [TranscriptXMLRegex, Regex.Matches] at h
    obtain ⟨m₁, r₁, rfl, rfl, m₂, r₂, rfl, h₂, m₃, r₃, rfl, rfl, m₄, r₄, rfl, h₄,
      m₅, r₅, rfl, rfl, m₆, r₆, rfl, h₆, rfl⟩ := h
    refine ⟨⟨[], m₂, m₄, m₆⟩, by simp [TextElement.render], ?_, ?_, ?_⟩
    · intro hq
      simpa using h₂ _ hq
    · intro hq
      simpa using h₄ _ hq
    · intro hq
      simpa using h₆ _ hq
  · rintro ⟨e, rfl, hs, hd, ht⟩
    have hne : ∀ (q : Char) (l : Str), q ∉ l → ∀ c ∈ l, (c != q) = true := by
      intro q l hq c hc
      have : c ≠ q := fun h => hq (h ▸ hc)
      simpa using this
    simp only [TranscriptXMLRegex, Regex.Matches]
    exact ⟨_, _, by simp only [TextElement.render, List.append_assoc], rfl,
      e.start, _, rfl, hne _ _ hs, _, _, rfl, rfl, e.dur, _, rfl, hne _ _ hd,
      _, _, rfl, rfl, e.text, _, rfl, hne _ _ ht, rfl⟩


/-! ## The counters of the loops are large enough -/

/-- An occurrence found by `Index` lies within the string. -/
theorem Index_bound (s sep : Str) (m : Nat) (h : Index s sep = some m) :
    m + sep.length ≤ s.length := by
  induction s generalizing m with
  | nil =>
    by_cases hsep : sep = []
    · simp [Index, hsep] at h
      simp [hsep, ← h]
    · simp [Index, hsep] at h
  | cons c t ih =>
    rw [Index] at h
    by_cases hp : sep.isPrefixOf (c :: t) = true
    · rw [if_pos hp] at h
      cases h
      have := (List.isPrefixOf_iff_prefix.mp hp).length_le
      omega
    · rw [if_neg hp] at h
      cases hi : Index t sep with
      | none => simp [hi] at h
      | some k =>
        simp [hi] at h
        have := ih k hi
        simp only [List.length_cons]
        omega

/-- The counter of `genSplit` does not cut the result short: from the length
of the string on, a larger counter changes nothing. -/
theorem genSplit_fuel (sep : Str) (hsep : sep ≠ []) :
    ∀ (n₁ n₂ : Nat) (s : Str), s.length ≤ n₁ → s.length ≤ n₂ →
      genSplit sep n₁ s = genSplit sep n₂ s := by
  have hpos : 0 < sep.length := List.length_pos.mpr hsep
  have hzero : ∀ (n : Nat), genSplit sep n [] = [[]] := by
    intro n
    cases n with
    | zero => rfl
    | succ k => simp [genSplit, Index_nil_left hsep]
  intro n₁
  induction n₁ with
  | zero =>
    intro n₂ s h₁ _
    have hs : s = [] := List.length_eq_zero.mp (Nat.le_zero.mp h₁)
    subst hs
    rw [hzero, hzero]
  | succ k ih =>
    intro n₂ s h₁ h₂
    cases n₂ with
    | zero =>
      have hs : s = [] := List.length_eq_zero.mp (Nat.le_zero.mp h₂)
      subst hs
      rw [hzero, hzero]
    | succ j =>
      rw [genSplit, genSplit]
      cases hi : Index s sep with
      | none => rfl
      | some m =>
        have hb := Index_bound s sep m hi
        have hd : (s.drop (m + sep.length)).length ≤ k := by
          simp only [List.length_drop]
          omega
        have hd2 : (s.drop (m + sep.length)).length ≤ j := by
          simp only [List.length_drop]
          omega
        simp only [ih j _ hd hd2]

/-- The counter of `replaceLoop` does not cut the result short. -/
theorem replaceLoop_fuel (old new : Str) (hold : old ≠ []) :
    ∀ (n₁ n₂ : Nat) (s : Str), s.length ≤ n₁ → s.length ≤ n₂ →
      replaceLoop old new n₁ s = replaceLoop old new n₂ s := by
  have hpos : 0 < old.length := List.length_pos.mpr hold
  have hzero : ∀ (n : Nat), replaceLoop old new n [] = [] := by
    intro n
    cases n with
    | zero => rfl
    | succ k => simp [replaceLoop, Index_nil_left hold]
  intro n₁
  induction n₁ with
  | zero =>
    intro n₂ s h₁ _
    have hs : s = [] := List.length_eq_zero.mp (Nat.le_zero.mp h₁)
    subst hs
    rw [hzero, hzero]
  | succ k ih =>
    intro n₂ s h₁ h₂
    cases n₂ with
    | zero =>
      have hs : s = [] := List.length_eq_zero.mp (Nat.le_zero.mp h₂)
      subst hs
      rw [hzero, hzero]
    | succ j =>
      rw [replaceLoop, replaceLoop]
      cases hi : Index s old with
      | none => rfl
      | some m =>
        have hb := Index_bound s old m hi
        have hd : (s.drop (m + old.length)).length ≤ k := by
          simp only [List.length_drop]
          omega
        have hd2 : (s.drop (m + old.length)).length ≤ j := by
          simp only [List.length_drop]
          omega
        simp only [ih j _ hd hd2]

/-- The leftmost match is a part of the input that the expression matches,
and what stands behind it is the remainder. -/
theorem find_sound (re : Regex) (n : Nat) (s : Str) (x : Str × List Str)
    (h : re.find n s = some x) : ∃ a m, s = a ++ m ++ x.1 ∧ re.Matches m := by
  induction s with
  | nil =>
    rw [Regex.find] at h
    obtain ⟨m, hs, hm⟩ := matchAt_sound re n [] x h
    exact ⟨[], m, by simpa using hs, hm⟩
  | cons c t ih =>
    rw [Regex.find] at h
    cases hm : re.matchAt n (c :: t) with
    | some y =>
      rw [hm] at h
      have hyx : y = x := Option.some.inj h
      rw [← hyx]
      obtain ⟨m, hs, hmatch⟩ := matchAt_sound re n (c :: t) y hm
      exact ⟨[], m, by simpa using hs, hmatch⟩
    | none =>
      rw [hm] at h
      obtain ⟨a, m, hs, hmatch⟩ := ih h
      exact ⟨c :: a, m, by simp [hs], hmatch⟩

/-- The counter of `allMatches` does not cut the result short: beyond the
length of the input a larger counter changes nothing. -/
theorem allMatches_fuel (re : Regex) (n : Nat) :
    ∀ (k₁ k₂ : Nat) (s : Str) (prevHere : Bool), s.length < k₁ → s.length < k₂ →
      allMatches re n k₁ s prevHere = allMatches re n k₂ s prevHere := by
  intro k₁
  induction k₁ with
  | zero =>
    intro k₂ s prevHere h₁ _
    omega
  | succ j₁ ih =>
    intro k₂ s prevHere h₁ h₂
    cases k₂ with
    | zero => omega
    | succ j₂ =>
      simp only [allMatches]
      cases hf : re.find n s with
      | none => rfl
      | some x =>
        obtain ⟨rest, caps⟩ := x
        obtain ⟨a, m, hs, _⟩ := find_sound re n s (rest, caps) hf
        have hle : rest.length ≤ s.length := by
          have := congrArg List.length hs
          simp only [List.length_append] at this
          omega
        by_cases hlen : rest.length = s.length
        · simp only [hlen, if_true]
          cases s with
          | nil => rfl
          | cons c t =>
            have ht := ih j₂ t false (by simp at h₁; omega) (by simp at h₂; omega)
            simp only [ht]
        · simp only [hlen, if_false]
          rw [ih j₂ rest true (by omega) (by omega)]

/-! ## Facts about `fetchAndParseTranscript` -/

/-- A text that occurs in a string is found by `Contains`. -/
theorem Contains_infix (a l b : Str) : Contains (a ++ l ++ b) l = true := by
  have hp : l.isPrefixOf (l ++ b) = true := by
    rw [List.isPrefixOf_iff_prefix]
    exact List.prefix_append l b
  induction a with
  | nil =>
    cases hlb : l ++ b with
    | nil =>
      obtain ⟨hl, hb⟩ := List.append_eq_nil.mp hlb
      subst hl hb
      decide
    | cons c t =>
      rw [hlb] at hp
      simp [Contains, Index, hlb, hp]
  | cons c a ih =>
    show (Index (c :: (a ++ l ++ b)) l).isSome = true
    rw [Index]
    by_cases hc : l.isPrefixOf (c :: (a ++ l ++ b)) = true
    · rw [if_pos hc]
      rfl
    · rw [if_neg hc]
      have hi : (Index (a ++ l ++ b) l).isSome = true := ih
      simpa using hi

/-- What a successful `fetchAndParseTranscript` was made from. -/
theorem fetchAndParseTranscript_ok {F : Type} (scanFloat : Str → F) (client : HTTPClient)
    (transcriptURL requestedLang defaultLang : Str) (segs : List (TranscriptSegment F))
    (h : fetchAndParseTranscript scanFloat client transcriptURL requestedLang defaultLang =
      .ok segs) :
    ∃ payload, client transcriptURL requestedLang = .response 200 (.ok payload) ∧
      FindAllStringSubmatch TranscriptXMLRegex 3 payload ≠ [] ∧
      segs = (FindAllStringSubmatch TranscriptXMLRegex 3 payload).map
        (makeSegment scanFloat requestedLang defaultLang) := by
  unfold fetchAndParseTranscript at h
  cases hc : client transcriptURL requestedLang with
  | requestError err => simp [hc] at h
  | doError err => simp [hc] at h
  | response StatusCode body =>
    simp only [hc] at h
    by_cases hst : StatusCode = 200
    · subst hst
      cases body with
      | error err => simp at h
      | ok payload =>
        cases hms : FindAllStringSubmatch TranscriptXMLRegex 3 payload with
        | nil => simp [hms] at h
        | cons m ms =>
          simp [hms] at h
          refine ⟨payload, rfl, by simp [hms], ?_⟩
          rw [hms, ← h]
          simp
    · simp [hst] at h

/-- The outcome of `fetchAndParseTranscript` on a fetched payload. -/
theorem fetchAndParseTranscript_of_payload {F : Type} (scanFloat : Str → F)
    (client : HTTPClient) (transcriptURL requestedLang defaultLang payload : Str)
    (hclient : client transcriptURL requestedLang = .response 200 (.ok payload)) :
    fetchAndParseTranscript scanFloat client transcriptURL requestedLang defaultLang =
      if (FindAllStringSubmatch TranscriptXMLRegex 3 payload).isEmpty then
        .error (NewNoTranscriptError transcriptURL)
      else .ok ((FindAllStringSubmatch TranscriptXMLRegex 3 payload).map
        (makeSegment scanFloat requestedLang defaultLang)) := by
  simp [fetchAndParseTranscript, hclient]

theorem makeSegment_Text {F : Type} (scanFloat : Str → F) (requestedLang defaultLang : Str)
    (m : List Str) :
    (makeSegment scanFloat requestedLang defaultLang m).Text = m.getD 3 [] := by
  unfold makeSegment
  by_cases h : requestedLang = [] <;> simp [h]

theorem makeSegment_Lang {F : Type} (scanFloat : Str → F) (requestedLang defaultLang : Str)
    (m : List Str) :
    (makeSegment scanFloat requestedLang defaultLang m).Lang =
      if requestedLang = [] then defaultLang else requestedLang := by
  unfold makeSegment
  by_cases h : requestedLang = [] <;> simp [h]

/-- The result of `fetchAndParseTranscript` on a payload of plain elements:
one segment for each element, in order. -/
theorem fetchAndParseTranscript_timedText {F : Type} (scanFloat : Str → F)
    (client : HTTPClient) (transcriptURL requestedLang defaultLang : Str)
    (es : List TextElement) (closing : Str) (hn : 1 ≤ es.length)
    (hes : ∀ e ∈ es, '<' ∉ e.before ∧ '"' ∉ e.start ∧ '"' ∉ e.dur ∧ '<' ∉ e.text)
    (hclosing : '<' ∉ closing)
    (hclient : client transcriptURL requestedLang =
      .response 200 (.ok (timedText es closing))) :
    fetchAndParseTranscript scanFloat client transcriptURL requestedLang defaultLang =
      .ok (es.map (fun e => makeSegment scanFloat requestedLang defaultLang e.submatches)) := by
  have hms := FindAllStringSubmatch_timedText es closing hes hclosing
  have hne : (es.map TextElement.submatches).isEmpty = false := by
    cases es with
    | nil => simp at hn
    | cons e es => rfl
  rw [fetchAndParseTranscript_of_payload scanFloat client _ _ _ _ hclient, hms, hne]
  simp

/-! ## The timed-text payload: claims C6, C7, C8 -/

/-- C6: for a payload made of `n >= 1` elements
`<text start="START" dur="DUR">TEXT</text>` whose `START` and `DUR` have no
quote and whose `TEXT` has no `<`, with text without `<` in front of,
between and behind them, `fetchAndParseTranscript` returns exactly `n`
segments, and their `Text` fields are the `TEXT` parts, unchanged and in the
order of the elements. -/
theorem C6_segments_in_document_order {F : Type} (scanFloat : Str → F) (client : HTTPClient)
    (transcriptURL requestedLang defaultLang : Str) (es : List TextElement) (closing : Str)
    (hn : 1 ≤ es.length)
    (hes : ∀ e ∈ es, '<' ∉ e.before ∧ '"' ∉ e.start ∧ '"' ∉ e.dur ∧ '<' ∉ e.text)
    (hclosing : '<' ∉ closing)
    (hclient : client transcriptURL requestedLang =
      .response 200 (.ok (timedText es closing))) :
    ∃ segs, fetchAndParseTranscript scanFloat client transcriptURL requestedLang defaultLang =
        .ok segs ∧
      segs.length = es.length ∧
      segs.map (fun seg => seg.Text) = es.map (fun e => e.text) := by
  refine ⟨es.map (fun e => makeSegment scanFloat requestedLang defaultLang e.submatches),
    fetchAndParseTranscript_timedText scanFloat client _ _ _ es closing hn hes hclosing
      hclient, ?_, ?_⟩
  · simp
  · simp only [List.map_map]
    apply List.map_congr_left
    intro e _
    simp [makeSegment_Text, TextElement.submatches]

/-- C6, worked instance: the payload
`<text start="0.5" dur="2.0">Hello</text><text start="2.5" dur="1.0">World</text>`
gives two segments, `Hello` then `World`; the scanner of the numbers is
left out here, the segments show the scanned texts. -/
theorem C6_segments_in_document_order_witness :
    timedText sampleElements [] =
        ("<text start=\"0.5\" dur=\"2.0\">Hello</text>".toList ++
          "<text start=\"2.5\" dur=\"1.0\">World</text>".toList) ∧
      (∃ segs, fetchAndParseTranscript (fun t => t)
          (fun _ _ => .response 200 (.ok (timedText sampleElements [])))
          "urlA".toList [] "en".toList = .ok segs ∧
        segs.length = 2 ∧
        segs.map (fun seg => seg.Text) = ["Hello".toList, "World".toList]) ∧
      fetchAndParseTranscript (fun t => t)
          (fun _ _ => .response 200 (.ok (timedText sampleElements [])))
          "urlA".toList [] "en".toList =
        .ok [⟨"Hello".toList, "2.0".toList, "0.5".toList, "en".toList⟩,
          ⟨"World".toList, "1.0".toList, "2.5".toList, "en".toList⟩] :=
  ⟨by decide,
    C6_segments_in_document_order (fun t => t)
      (fun _ _ => .response 200 (.ok (timedText sampleElements [])))
      "urlA".toList [] "en".toList sampleElements [] (by decide) (by decide) (by decide) rfl,
    by decide⟩

/-- C7: every segment that `fetchAndParseTranscript` returns carries the
requested language when one was requested, and the default language
otherwise; so all segments of one result carry the same language. -/
theorem C7_segment_language {F : Type} (scanFloat : Str → F) (client : HTTPClient)
    (transcriptURL requestedLang defaultLang : Str) (segs : List (TranscriptSegment F))
    (hok : fetchAndParseTranscript scanFloat client transcriptURL requestedLang defaultLang =
      .ok segs) :
    (∀ seg ∈ segs, seg.Lang = if requestedLang = [] then defaultLang else requestedLang) ∧
      ∀ seg₁ ∈ segs, ∀ seg₂ ∈ segs, seg₁.Lang = seg₂.Lang := by
  obtain ⟨payload, _, _, hsegs⟩ :=
    fetchAndParseTranscript_ok scanFloat client _ _ _ segs hok
  have hall : ∀ seg ∈ segs,
      seg.Lang = if requestedLang = [] then defaultLang else requestedLang := by
    intro seg hseg
    rw [hsegs] at hseg
    obtain ⟨m, _, rfl⟩ := List.mem_map.mp hseg
    exact makeSegment_Lang scanFloat requestedLang defaultLang m
  exact ⟨hall, fun s₁ h₁ s₂ h₂ => by rw [hall s₁ h₁, hall s₂ h₂]⟩

/-- C7, worked instance: the two-element payload parsed with requested
language `fr` and default language `en` gives segments in `fr`, and parsed
without requested language gives segments in `en`. -/
theorem C7_segment_language_witness :
    (∀ seg ∈ [(⟨"Hello".toList, "2.0".toList, "0.5".toList, "fr".toList⟩ :
          TranscriptSegment Str),
        ⟨"World".toList, "1.0".toList, "2.5".toList, "fr".toList⟩],
        seg.Lang = if "fr".toList = [] then "en".toList else "fr".toList) ∧
      (∀ seg ∈ [(⟨"Hello".toList, "2.0".toList, "0.5".toList, "en".toList⟩ :
          TranscriptSegment Str),
        ⟨"World".toList, "1.0".toList, "2.5".toList, "en".toList⟩],
        seg.Lang = if ([] : Str) = [] then "en".toList else []) :=
  ⟨(C7_segment_language (fun t => t)
      (fun _ _ => .response 200 (.ok (timedText sampleElements [])))
      "urlA".toList "fr".toList "en".toList _ (by decide)).1,
    (C7_segment_language (fun t => t)
      (fun _ _ => .response 200 (.ok (timedText sampleElements [])))
      "urlA".toList [] "en".toList _ (by decide)).1⟩

/-- C8: when no part of the fetched payload is matched by
`TranscriptXMLRegex`, as is the case for the empty payload,
`fetchAndParseTranscript` fails with `NoTranscriptError`; and whenever it
succeeds, the sequence of segments it returns is not empty. -/
theorem C8_no_match_is_no_transcript {F : Type} (scanFloat : Str → F) (client : HTTPClient)
    (transcriptURL requestedLang defaultLang : Str) :
    (∀ payload : Str,
        client transcriptURL requestedLang = .response 200 (.ok payload) →
        (∀ a m b, payload = a ++ m ++ b → ¬ TranscriptXMLRegex.Matches m) →
        fetchAndParseTranscript scanFloat client transcriptURL requestedLang defaultLang =
          .error (NewNoTranscriptError transcriptURL)) ∧
      (client transcriptURL requestedLang = .response 200 (.ok []) →
        fetchAndParseTranscript scanFloat client transcriptURL requestedLang defaultLang =
          .error (NewNoTranscriptError transcriptURL)) ∧
      (∀ segs : List (TranscriptSegment F),
        fetchAndParseTranscript scanFloat client transcriptURL requestedLang defaultLang =
          .ok segs →
        segs ≠ []) := by
  refine ⟨?_, ?_, ?_⟩
  · intro payload hclient hno
    rw [fetchAndParseTranscript_of_payload scanFloat client _ _ _ _ hclient,
      FindAllStringSubmatch_of_no_match _ _ _ hno]
    rfl
  · intro hclient
    rw [fetchAndParseTranscript_of_payload scanFloat client _ _ _ _ hclient]
    rfl
  · intro segs hok
    obtain ⟨payload, _, hne, hsegs⟩ :=
      fetchAndParseTranscript_ok scanFloat client _ _ _ segs hok
    rw [hsegs]
    simpa using hne

/-- No part of `emptyTranscript` is matched by `TranscriptXMLRegex`. -/
theorem emptyTranscript_no_match :
    ∀ a m b, emptyTranscript = a ++ m ++ b → ¬ TranscriptXMLRegex.Matches m := by
  intro a m b hab hm
  obtain ⟨e, rfl, _⟩ := (Matches_TranscriptXMLRegex m).mp hm
  have hc : Contains emptyTranscript "<text start=\"".toList = true := by
    rw [hab]
    have hshape : a ++ e.render ++ b =
        a ++ "<text start=\"".toList ++ (e.start ++ "\" dur=\"".toList ++ e.dur ++
          "\">".toList ++ e.text ++ "</text>".toList ++ b) := by
      simp [TextElement.render, List.append_assoc]
    rw [hshape]
    exact Contains_infix _ _ _
  revert hc
  decide

/-- C8, worked instance: a transcript document without `text` elements and
the empty payload are answered with `NoTranscriptError`, and the result for
the two-element payload is not empty. -/
theorem C8_no_match_is_no_transcript_witness :
    fetchAndParseTranscript (fun t => t) (fun _ _ => .response 200 (.ok emptyTranscript))
        "urlA".toList [] "en".toList = .error (NewNoTranscriptError "urlA".toList) ∧
      fetchAndParseTranscript (fun t => t) (fun _ _ => .response 200 (.ok []))
        "urlA".toList [] "en".toList = .error (NewNoTranscriptError "urlA".toList) ∧
      ([(⟨"Hello".toList, "2.0".toList, "0.5".toList, "en".toList⟩ : TranscriptSegment Str),
        ⟨"World".toList, "1.0".toList, "2.5".toList, "en".toList⟩] ≠ []) :=
  ⟨(C8_no_match_is_no_transcript (fun t => t)
      (fun _ _ => .response 200 (.ok emptyTranscript)) "urlA".toList [] "en".toList).1
      emptyTranscript rfl emptyTranscript_no_match,
    (C8_no_match_is_no_transcript (fun t => t) (fun _ _ => .response 200 (.ok []))
      "urlA".toList [] "en".toList).2.1 rfl,
    (C8_no_match_is_no_transcript (fun t => t)
      (fun _ _ => .response 200 (.ok (timedText sampleElements [])))
      "urlA".toList [] "en".toList).2.2 _ (by decide)⟩

/-! ## Track selection and segment language: claims C18, C20 -/

/-- A document that `parseCaptionsData` returns has a track. -/
theorem parseCaptionsData_ok_has_track (unmarshal : Str → Option CaptionsData)
    (pageContent videoID : Str) (doc : CaptionsData)
    (hok : parseCaptionsData unmarshal pageContent videoID = .ok doc) :
    doc.PlayerCaptionsTracklistRenderer.CaptionTracks ≠ [] := by
  cases hc : Contains pageContent captionsMarker with
  | false =>
    rw [parseCaptionsData_of_no_marker unmarshal pageContent videoID hc] at hok
    cases hok
  | true =>
    rw [parseCaptionsData_of_marker unmarshal pageContent videoID hc] at hok
    cases hu : unmarshal (captionsJSONText ((Split pageContent captionsMarker).getD 1 []))
      with
    | none =>
      rw [hu] at hok
      cases hok
    | some d =>
      rw [hu] at hok
      by_cases hd : d.PlayerCaptionsTracklistRenderer.CaptionTracks.length = 0
      · simp [hd] at hok
      · simp only [hd, if_false] at hok
        cases hok
        intro hnil
        exact hd (by simp [hnil])

/-- The outcome of `getTranscriptURL` without a requested language. -/
theorem getTranscriptURL_no_lang (captionsData : CaptionsData) (videoID : Str) :
    getTranscriptURL captionsData videoID [] =
      match captionsData.PlayerCaptionsTracklistRenderer.CaptionTracks with
      | [] => .error (NewNoTranscriptError videoID)
      | t :: _ => .ok (t.BaseURL, t.LanguageCode) := by
  cases h : captionsData.PlayerCaptionsTracklistRenderer.CaptionTracks <;>
    simp [getTranscriptURL, selectTrack, h]

/-- The outcome of `getTranscriptURL` with a requested language. -/
theorem getTranscriptURL_lang (captionsData : CaptionsData) (videoID requestedLang : Str)
    (hlang : requestedLang ≠ []) :
    (∃ m, getTranscriptURL captionsData videoID requestedLang =
        .error (.LanguageNotFoundError m requestedLang
          (captionsData.PlayerCaptionsTracklistRenderer.CaptionTracks.map
            (fun t => t.LanguageCode)) videoID)) ∨
      ∃ t ∈ captionsData.PlayerCaptionsTracklistRenderer.CaptionTracks,
        t.LanguageCode = requestedLang ∧
        getTranscriptURL captionsData videoID requestedLang =
          .ok (t.BaseURL, t.LanguageCode) := by
  by_cases hsome : ∃ t ∈ captionsData.PlayerCaptionsTracklistRenderer.CaptionTracks,
      (fun t : CaptionTrack => t.LanguageCode == requestedLang) t = true
  · right
    obtain ⟨pre, t, post, hl, _, hpt, hfind⟩ := find_first_split _ _ hsome
    have hcode : t.LanguageCode = requestedLang := by simpa using hpt
    have hany : captionsData.PlayerCaptionsTracklistRenderer.CaptionTracks.any
        (fun track => track.LanguageCode == requestedLang) = true := by
      rw [List.any_eq_true]
      exact hsome
    refine ⟨t, by simp [hl], hcode, ?_⟩
    simp only [getTranscriptURL, validateLanguageAvailability, hany, if_pos hlang,
      selectTrack, hfind]
    rfl
  · left
    have hany : captionsData.PlayerCaptionsTracklistRenderer.CaptionTracks.any
        (fun track => track.LanguageCode == requestedLang) = false := by
      rw [List.any_eq_false]
      intro t ht hcode
      exact hsome ⟨t, ht, hcode⟩
    simp only [getTranscriptURL, validateLanguageAvailability, hany, if_pos hlang,
      NewLanguageNotFoundError]
    exact ⟨_, rfl⟩

/-- C18: `getTranscriptURL` fails with `NoTranscriptError` exactly when no
language was requested and the track list is empty; with a requested
language it either fails with `LanguageNotFoundError` or returns a track of
the list; and for a document that `parseCaptionsData` returned it never
fails with `NoTranscriptError`. -/
theorem C18_no_transcript_branch (captionsData : CaptionsData)
    (videoID requestedLang : Str) :
    ((∃ m v, getTranscriptURL captionsData videoID requestedLang =
          .error (.NoTranscriptError m v)) ↔
        requestedLang = [] ∧
          captionsData.PlayerCaptionsTracklistRenderer.CaptionTracks = []) ∧
      (requestedLang ≠ [] →
        (∃ m langs, getTranscriptURL captionsData videoID requestedLang =
            .error (.LanguageNotFoundError m requestedLang langs videoID)) ∨
          ∃ t ∈ captionsData.PlayerCaptionsTracklistRenderer.CaptionTracks,
            getTranscriptURL captionsData videoID requestedLang =
              .ok (t.BaseURL, t.LanguageCode)) ∧
      ∀ (unmarshal : Str → Option CaptionsData) (pageContent pageVideoID : Str),
        parseCaptionsData unmarshal pageContent pageVideoID = .ok captionsData →
        ¬ ∃ m v, getTranscriptURL captionsData videoID requestedLang =
          .error (.NoTranscriptError m v) := by
  have hiff : (∃ m v, getTranscriptURL captionsData videoID requestedLang =
        .error (.NoTranscriptError m v)) ↔
      requestedLang = [] ∧
        captionsData.PlayerCaptionsTracklistRenderer.CaptionTracks = [] := by
    constructor
    · rintro ⟨m, v, h⟩
      by_cases hlang : requestedLang = []
      · subst hlang
        refine ⟨rfl, ?_⟩
        rw [getTranscriptURL_no_lang] at h
        cases ht : captionsData.PlayerCaptionsTracklistRenderer.CaptionTracks with
        | nil => rfl
        | cons t ts =>
          rw [ht] at h
          cases h
      · rcases getTranscriptURL_lang captionsData videoID requestedLang hlang with
          ⟨m', h'⟩ | ⟨t, _, _, h'⟩
        · rw [h'] at h
          cases h
        · rw [h'] at h
          cases h
    · rintro ⟨rfl, ht⟩
      rw [getTranscriptURL_no_lang, ht]
      exact ⟨_, _, rfl⟩
  refine ⟨hiff, ?_, ?_⟩
  · intro hlang
    rcases getTranscriptURL_lang captionsData videoID requestedLang hlang with
      ⟨m, h⟩ | ⟨t, ht, _, h⟩
    · exact Or.inl ⟨m, _, h⟩
    · exact Or.inr ⟨t, ht, h⟩
  · intro unmarshal pageContent pageVideoID hok hno
    have htracks := parseCaptionsData_ok_has_track unmarshal pageContent pageVideoID
      captionsData hok
    exact htracks (hiff.mp hno).2

/-- C18, worked instance: the empty document without requested language is
answered with `NoTranscriptError`; the document of `oneTrackPage` is not,
neither without requested language nor with `fr`. -/
theorem C18_no_transcript_branch_witness :
    (∃ m v, getTranscriptURL ⟨⟨[]⟩⟩ sampleVideoID [] = .error (.NoTranscriptError m v)) ∧
      (¬ ∃ m v, getTranscriptURL ⟨⟨[⟨"urlA".toList, "en".toList⟩]⟩⟩ sampleVideoID [] =
        .error (.NoTranscriptError m v)) ∧
      ¬ ∃ m v, getTranscriptURL ⟨⟨[⟨"urlA".toList, "en".toList⟩]⟩⟩ sampleVideoID
        "fr".toList = .error (.NoTranscriptError m v) :=
  ⟨(C18_no_transcript_branch ⟨⟨[]⟩⟩ sampleVideoID []).1.mpr ⟨rfl, rfl⟩,
    (C18_no_transcript_branch ⟨⟨[⟨"urlA".toList, "en".toList⟩]⟩⟩ sampleVideoID []).2.2
      sampleUnmarshal oneTrackPage sampleVideoID (by decide),
    (C18_no_transcript_branch ⟨⟨[⟨"urlA".toList, "en".toList⟩]⟩⟩ sampleVideoID
      "fr".toList).2.2 sampleUnmarshal oneTrackPage sampleVideoID (by decide)⟩

/-- C20: when `getTranscriptURL` succeeds with a URL and an effective
language, and the segments are built with the same requested language and
with this effective language as default, every segment carries the
effective language, and the effective language is the language code of a
track of the document whose base URL is the URL returned. -/
theorem C20_segment_language_is_track_language {F : Type} (scanFloat : Str → F)
    (client : HTTPClient) (captionsData : CaptionsData)
    (videoID requestedLang transcriptURL effectiveLang : Str)
    (segs : List (TranscriptSegment F))
    (hurl : getTranscriptURL captionsData videoID requestedLang =
      .ok (transcriptURL, effectiveLang))
    (hsegs : fetchAndParseTranscript scanFloat client transcriptURL requestedLang
      effectiveLang = .ok segs) :
    (∀ seg ∈ segs, seg.Lang = effectiveLang) ∧
      ∃ t ∈ captionsData.PlayerCaptionsTracklistRenderer.CaptionTracks,
        t.BaseURL = transcriptURL ∧ t.LanguageCode = effectiveLang := by
  obtain ⟨payload, _, _, hmap⟩ :=
    fetchAndParseTranscript_ok scanFloat client _ _ _ segs hsegs
  have hall : ∀ seg ∈ segs,
      seg.Lang = if requestedLang = [] then effectiveLang else requestedLang := by
    intro seg hseg
    rw [hmap] at hseg
    obtain ⟨m, _, rfl⟩ := List.mem_map.mp hseg
    exact makeSegment_Lang scanFloat requestedLang effectiveLang m
  by_cases hlang : requestedLang = []
  · subst hlang
    rw [getTranscriptURL_no_lang] at hurl
    cases ht : captionsData.PlayerCaptionsTracklistRenderer.CaptionTracks with
    | nil =>
      rw [ht] at hurl
      cases hurl
    | cons t ts =>
      rw [ht] at hurl
      simp only [Except.ok.injEq, Prod.mk.injEq] at hurl
      refine ⟨fun seg hseg => by simpa using hall seg hseg, t, by simp, hurl.1, hurl.2⟩
  · rcases getTranscriptURL_lang captionsData videoID requestedLang hlang with
      ⟨m, h⟩ | ⟨t, ht, hcode, h⟩
    · rw [h] at hurl
      cases hurl
    · rw [h] at hurl
      simp only [Except.ok.injEq, Prod.mk.injEq] at hurl
      have heff : effectiveLang = requestedLang := by rw [← hurl.2, hcode]
      refine ⟨fun seg hseg => ?_, t, ht, hurl.1, hurl.2⟩
      rw [hall seg hseg, if_neg hlang, heff]

/-- C20, worked instance: for the tracks `en` at `urlA` and `fr` at `urlB`
and the requested language `fr`, the segments of the two-element payload
carry `fr`, the language code of the track at `urlB`; without requested
language they carry `en`, the language code of the first track. -/
theorem C20_segment_language_is_track_language_witness :
    ((∀ seg ∈ [(⟨"Hello".toList, "2.0".toList, "0.5".toList, "fr".toList⟩ :
            TranscriptSegment Str),
          ⟨"World".toList, "1.0".toList, "2.5".toList, "fr".toList⟩],
          seg.Lang = "fr".toList) ∧
        ∃ t ∈ sampleTracks.PlayerCaptionsTracklistRenderer.CaptionTracks,
          t.BaseURL = "urlB".toList ∧ t.LanguageCode = "fr".toList) ∧
      ((∀ seg ∈ [(⟨"Hello".toList, "2.0".toList, "0.5".toList, "en".toList⟩ :
            TranscriptSegment Str),
          ⟨"World".toList, "1.0".toList, "2.5".toList, "en".toList⟩],
          seg.Lang = "en".toList) ∧
        ∃ t ∈ sampleTracks.PlayerCaptionsTracklistRenderer.CaptionTracks,
          t.BaseURL = "urlA".toList ∧ t.LanguageCode = "en".toList) :=
  ⟨C20_segment_language_is_track_language (fun t => t)
      (fun _ _ => .response 200 (.ok (timedText sampleElements [])))
      sampleTracks sampleVideoID "fr".toList "urlB".toList "fr".toList _
      (by decide) (by decide),
    C20_segment_language_is_track_language (fun t => t)
      (fun _ _ => .response 200 (.ok (timedText sampleElements [])))
      sampleTracks sampleVideoID [] "urlA".toList "en".toList _
      (by decide) (by decide)⟩

/-! ## More facts about the backtracking search -/

/-- Every remainder behind a run of class characters is among the remainders
of `c*`. -/
theorem starRests_complete (p : Char → Bool) (m rest : Str) (hm : ∀ c ∈ m, p c = true) :
    rest ∈ starRests p (m ++ rest) := by
  induction m with
  | nil =>
    cases rest with
    | nil => simp [starRests]
    | cons c t =>
      by_cases hc : p c = true <;> simp [starRests, hc]
  | cons a m ih =>
    have ha : p a = true := hm a (by simp)
    have := ih (fun c hc => hm c (by simp [hc]))
    simp [starRests, ha, this]

/-- Completeness of the search: a prefix that the expression matches is
found by `run`, with some submatches. -/
theorem run_complete (re : Regex) :
    ∀ (m rest : Str) (caps : List Str), re.Matches m →
      ∃ caps', (rest, caps') ∈ re.run (m ++ rest) caps := by
  induction re with
  | lit l =>
    intro m rest caps hm
    have hm' : m = l := hm
    subst hm'
    have hp : m.isPrefixOf (m ++ rest) = true := by
      rw [List.isPrefixOf_iff_prefix]
      exact List.prefix_append m rest
    exact ⟨caps, by simp [Regex.run, hp]⟩
  | cls p =>
    intro m rest caps hm
    obtain ⟨c, rfl, hc⟩ := hm
    exact ⟨caps, by simp [Regex.run, hc]⟩
  | star p =>
    intro m rest caps hm
    refine ⟨caps, ?_⟩
    simp only [Regex.run, List.mem_map]
    exact ⟨rest, starRests_complete p m rest hm, rfl⟩
  | plus p =>
    intro m rest caps hm
    obtain ⟨hne, hall⟩ := hm
    cases m with
    | nil => exact absurd rfl hne
    | cons c t =>
      have hc : p c = true := hall c (by simp)
      refine ⟨caps, ?_⟩
      simp only [List.cons_append, Regex.run, hc, if_true, List.mem_map]
      exact ⟨rest, starRests_complete p t rest (fun d hd => hall d (by simp [hd])), rfl⟩
  | rep p n =>
    intro m rest caps hm
    obtain ⟨hlen, hall⟩ := hm
    refine ⟨caps, ?_⟩
    have htake : (m ++ rest).take n = m := by
      rw [← hlen]
      exact List.take_left' rfl
    have hdrop : (m ++ rest).drop n = rest := by
      rw [← hlen]
      exact List.drop_left' rfl
    have hallb : m.all p = true := List.all_eq_true.mpr hall
    simp [Regex.run, htake, hdrop, hlen, hallb]
  | seq a b iha ihb =>
    intro m rest caps hm
    obtain ⟨m₁, m₂, rfl, h₁, h₂⟩ := hm
    obtain ⟨c₁, hc₁⟩ := iha m₁ (m₂ ++ rest) caps h₁
    obtain ⟨c₂, hc₂⟩ := ihb m₂ rest c₁ h₂
    refine ⟨c₂, ?_⟩
    simp only [Regex.run, List.mem_flatMap, List.append_assoc]
    exact ⟨(m₂ ++ rest, c₁), hc₁, hc₂⟩
  | alt a b iha ihb =>
    intro m rest caps hm
    rcases hm with hm | hm
    · obtain ⟨c, hc⟩ := iha m rest caps hm
      exact ⟨c, by simp [Regex.run, hc]⟩
    · obtain ⟨c, hc⟩ := ihb m rest caps hm
      exact ⟨c, by simp [Regex.run, hc]⟩
  | opt a iha =>
    intro m rest caps hm
    rcases hm with hm | hm
    · obtain ⟨c, hc⟩ := iha m rest caps hm
      exact ⟨c, by simp [Regex.run, hc]⟩
    · subst hm
      exact ⟨caps, by simp [Regex.run]⟩
  | group i a iha =>
    intro m rest caps hm
    obtain ⟨c, hc⟩ := iha m rest caps hm
    refine ⟨c.set i ((m ++ rest).take ((m ++ rest).length - rest.length)), ?_⟩
    simp only [Regex.run, List.mem_map]
    exact ⟨(rest, c), hc, rfl⟩

/-- The search never changes the number of recorded submatches. -/
theorem run_caps_length (re : Regex) :
    ∀ (s : Str) (caps : List Str) (x : Str × List Str), x ∈ re.run s caps →
      x.2.length = caps.length := by
  induction re with
  | lit l =>
    intro s caps x hx
    by_cases hp : l.isPrefixOf s = true
    · simp only [Regex.run, hp, if_true, List.mem_singleton] at hx
      rw [hx]
    · simp [Regex.run, hp] at hx
  | cls p =>
    intro s caps x hx
    cases s with
    | nil => simp [Regex.run] at hx
    | cons c t =>
      by_cases hc : p c = true
      · simp only [Regex.run, hc, if_true, List.mem_singleton] at hx
        rw [hx]
      · simp [Regex.run, hc] at hx
  | star p =>
    intro s caps x hx
    simp only [Regex.run, List.mem_map] at hx
    obtain ⟨r, _, rfl⟩ := hx
    rfl
  | plus p =>
    intro s caps x hx
    cases s with
    | nil => simp [Regex.run] at hx
    | cons c t =>
      by_cases hc : p c = true
      · simp only [Regex.run, hc, if_true, List.mem_map] at hx
        obtain ⟨r, _, rfl⟩ := hx
        rfl
      · simp [Regex.run, hc] at hx
  | rep p n =>
    intro s caps x hx
    by_cases hc : (s.take n).length = n ∧ (s.take n).all p = true
    · simp only [Regex.run, hc, and_self, if_true, List.mem_singleton] at hx
      rw [hx]
    · simp only [Regex.run, if_neg hc] at hx
      cases hx
  | seq a b iha ihb =>
    intro s caps x hx
    simp only [Regex.run, List.mem_flatMap] at hx
    obtain ⟨y, hy, hxy⟩ := hx
    rw [ihb y.1 y.2 x hxy, iha s caps y hy]
  | alt a b iha ihb =>
    intro s caps x hx
    simp only [Regex.run, List.mem_append] at hx
    rcases hx with hx | hx
    · exact iha s caps x hx
    · exact ihb s caps x hx
  | opt a iha =>
    intro s caps x hx
    simp only [Regex.run, List.mem_append, List.mem_singleton] at hx
    rcases hx with hx | hx
    · exact iha s caps x hx
    · rw [hx]
  | group i a iha =>
    intro s caps x hx
    simp only [Regex.run, List.mem_map] at hx
    obtain ⟨y, hy, rfl⟩ := hx
    simp [iha s caps y hy]

/-- A match found at the head of the input has one entry for the whole
match and one for each group. -/
theorem matchAt_caps_length (re : Regex) (n : Nat) (s : Str) (x : Str × List Str)
    (h : re.matchAt n s = some x) : x.2.length = n + 1 := by
  have hmem : x ∈ (Regex.group 0 re).run s (List.replicate (n + 1) []) :=
    List.mem_of_mem_head? h
  simpa using run_caps_length (.group 0 re) s _ x hmem

theorem find_caps_length (re : Regex) (n : Nat) (s : Str) (x : Str × List Str)
    (h : re.find n s = some x) : x.2.length = n + 1 := by
  induction s with
  | nil =>
    rw [Regex.find] at h
    exact matchAt_caps_length re n [] x h
  | cons c t ih =>
    rw [Regex.find] at h
    cases hm : re.matchAt n (c :: t) with
    | some y =>
      rw [hm] at h
      have hyx : y = x := Option.some.inj h
      rw [← hyx]
      exact matchAt_caps_length re n (c :: t) y hm
    | none =>
      rw [hm] at h
      exact ih h

/-- A prefix that the expression matches is found at the head of the input. -/
theorem matchAt_complete (re : Regex) (n : Nat) (m rest : Str) (hm : re.Matches m) :
    (re.matchAt n (m ++ rest)).isSome = true := by
  obtain ⟨caps', hc⟩ := run_complete (.group 0 re) m rest (List.replicate (n + 1) []) hm
  rw [Regex.matchAt]
  cases hr : (Regex.group 0 re).run (m ++ rest) (List.replicate (n + 1) []) with
  | nil =>
    rw [hr] at hc
    cases hc
  | cons y ys => rfl

/-- A part of the input that the expression matches makes the search
succeed. -/
theorem find_complete (re : Regex) (n : Nat) (a m b : Str) (hm : re.Matches m) :
    (re.find n (a ++ m ++ b)).isSome = true := by
  induction a with
  | nil =>
    have h := matchAt_complete re n m b hm
    cases hs : m ++ b with
    | nil =>
      rw [hs] at h
      simpa [Regex.find, hs] using h
    | cons c t =>
      rw [hs] at h
      obtain ⟨x, hx⟩ := Option.isSome_iff_exists.mp h
      simp [Regex.find, hs, hx]
  | cons c a ih =>
    show (re.find n (c :: (a ++ m ++ b))).isSome = true
    rw [Regex.find]
    cases hm2 : re.matchAt n (c :: (a ++ m ++ b)) with
    | some y => rfl
    | none => exact ih

/-- The search finds nothing exactly when no part of the input is matched
by the expression. -/
theorem find_eq_none_iff (re : Regex) (n : Nat) (s : Str) :
    re.find n s = none ↔ ∀ a m b, s = a ++ m ++ b → ¬ re.Matches m := by
  constructor
  · intro h a m b hs hm
    have := find_complete re n a m b hm
    rw [← hs, h] at this
    cases this
  · exact find_none_of_no_match re n s

/-! ## Facts about `retrieveVideoID` -/

theorem len_append (a b : Str) : len (a ++ b) = len a + len b := by
  simp [len]

/-- A string of 11 bytes is returned as it is. -/
theorem retrieveVideoID_of_len (videoID : Str) (h : len videoID = 11) :
    retrieveVideoID videoID = .ok videoID := by
  simp [retrieveVideoID, h]

/-- A string of another length in which `VideoIDRegex` matches is answered
with the first submatch of the leftmost match. -/
theorem retrieveVideoID_of_find_some (videoID : Str) (x : Str × List Str)
    (h : len videoID ≠ 11) (hfind : VideoIDRegex.find 1 videoID = some x) :
    retrieveVideoID videoID = .ok (x.2.getD 1 []) := by
  have hlen := find_caps_length VideoIDRegex 1 videoID x hfind
  obtain ⟨rest, caps⟩ := x
  simp only [retrieveVideoID, if_neg h, FindStringSubmatch, hfind]
  simp at hlen
  simp [hlen]

/-- A string of another length in which `VideoIDRegex` does not match is
answered with the identifier-extraction error. -/
theorem retrieveVideoID_of_find_none (videoID : Str)
    (h : len videoID ≠ 11) (hfind : VideoIDRegex.find 1 videoID = none) :
    retrieveVideoID videoID = .error (NewTranscriptError extractionMessage) := by
  simp [retrieveVideoID, if_neg h, FindStringSubmatch, hfind]

/-- When `retrieveVideoID` fails: the string is not 11 bytes long and no part
of it is matched by `VideoIDRegex`; the error is the identifier-extraction
error. -/
theorem retrieveVideoID_error_iff (videoID : Str) (err : Error) :
    retrieveVideoID videoID = .error err ↔
      len videoID ≠ 11 ∧
        (∀ a m b, videoID = a ++ m ++ b → ¬ VideoIDRegex.Matches m) ∧
        err = NewTranscriptError extractionMessage := by
  constructor
  · intro herr
    by_cases hl : len videoID = 11
    · rw [retrieveVideoID_of_len videoID hl] at herr
      cases herr
    · cases hf : VideoIDRegex.find 1 videoID with
      | some x =>
        rw [retrieveVideoID_of_find_some videoID x hl hf] at herr
        cases herr
      | none =>
        rw [retrieveVideoID_of_find_none videoID hl hf] at herr
        refine ⟨hl, (find_eq_none_iff VideoIDRegex 1 videoID).mp hf, ?_⟩
        cases herr
        rfl
  · rintro ⟨hl, hno, rfl⟩
    exact retrieveVideoID_of_find_none videoID hl
      ((find_eq_none_iff VideoIDRegex 1 videoID).mpr hno)

/-! ## Facts about `VideoIDRegex` -/

/-- An expression without capture groups leaves the submatches as they are. -/
theorem run_caps_groupFree (re : Regex) (hre : re.groupFree = true) :
    ∀ (s : Str) (caps : List Str) (x : Str × List Str), x ∈ re.run s caps → x.2 = caps := by
  induction re with
  | lit l =>
    intro s caps x hx
    by_cases hp : l.isPrefixOf s = true
    · simp only [Regex.run, hp, if_true, List.mem_singleton] at hx
      rw [hx]
    · simp [Regex.run, hp] at hx
  | cls p =>
    intro s caps x hx
    cases s with
    | nil => simp [Regex.run] at hx
    | cons c t =>
      by_cases hc : p c = true
      · simp only [Regex.run, hc, if_true, List.mem_singleton] at hx
        rw [hx]
      · simp [Regex.run, hc] at hx
  | star p =>
    intro s caps x hx
    simp only [Regex.run, List.mem_map] at hx
    obtain ⟨r, _, rfl⟩ := hx
    rfl
  | plus p =>
    intro s caps x hx
    cases s with
    | nil => simp [Regex.run] at hx
    | cons c t =>
      by_cases hc : p c = true
      · simp only [Regex.run, hc, if_true, List.mem_map] at hx
        obtain ⟨r, _, rfl⟩ := hx
        rfl
      · simp [Regex.run, hc] at hx
  | rep p n =>
    intro s caps x hx
    by_cases hc : (s.take n).length = n ∧ (s.take n).all p = true
    · simp only [Regex.run, hc, and_self, if_true, List.mem_singleton] at hx
      rw [hx]
    · simp only [Regex.run, if_neg hc] at hx
      cases hx
  | seq a b iha ihb =>
    intro s caps x hx
    simp only [Regex.groupFree, Bool.and_eq_true] at hre
    simp only [Regex.run, List.mem_flatMap] at hx
    obtain ⟨y, hy, hxy⟩ := hx
    rw [ihb hre.2 y.1 y.2 x hxy, iha hre.1 s caps y hy]
  | alt a b iha ihb =>
    intro s caps x hx
    simp only [Regex.groupFree, Bool.and_eq_true] at hre
    simp only [Regex.run, List.mem_append] at hx
    rcases hx with hx | hx
    · exact iha hre.1 s caps x hx
    · exact ihb hre.2 s caps x hx
  | opt a iha =>
    intro s caps x hx
    simp only [Regex.groupFree] at hre
    simp only [Regex.run, List.mem_append, List.mem_singleton] at hx
    rcases hx with hx | hx
    · exact iha hre s caps x hx
    · rw [hx]
  | group i a _ =>
    simp [Regex.groupFree] at hre

/-- What `run` finds for `VideoIDRegex`: the input without a text that the
lead matches and 11 characters of the identifier class, which are recorded
as submatch 1. -/
theorem run_VideoIDRegex_sound (s : Str) (caps : List Str) (z : Str × List Str)
    (hz : z ∈ VideoIDRegex.run s caps) :
    ∃ m₀ id, s = m₀ ++ id ++ z.1 ∧ VideoIDLead.Matches m₀ ∧ id.length = 11 ∧
      (∀ c ∈ id, idClass c = true) ∧ z.2 = caps.set 1 id := by
  rw [VideoIDRegex, run_seq, List.mem_flatMap] at hz
  obtain ⟨y, hy, hzy⟩ := hz
  obtain ⟨m₀, hs, hm₀⟩ := run_sound VideoIDLead s caps y hy
  have hcaps : y.2 = caps := run_caps_groupFree VideoIDLead (by decide) s caps y hy
  rw [run_group, List.mem_map] at hzy
  obtain ⟨w, hw, rfl⟩ := hzy
  by_cases hc : (y.1.take 11).length = 11 ∧ (y.1.take 11).all idClass = true
  · simp only [Regex.run, hc, and_self, if_true, List.mem_singleton] at hw
    subst hw
    have hlen : 11 ≤ y.1.length := by
      have := hc.1
      simp only [List.length_take] at this
      omega
    refine ⟨m₀, y.1.take 11, ?_, hm₀, hc.1, List.all_eq_true.mp hc.2, ?_⟩
    · simp only [List.append_assoc, List.take_append_drop]
      exact hs
    · simp only [List.length_drop, hcaps]
      congr 2
      omega
  · simp only [Regex.run, if_neg hc] at hw
    cases hw

/-- A text that the lead matches begins with `youtube.com/` or is
`youtu.be/`. -/
theorem VideoIDLead_start (m : Str) (hm : VideoIDLead.Matches m) :
    (∃ m', m = "youtube.com/".toList ++ m') ∨ m = "youtu.be/".toList := by
  simp only [VideoIDLead, Regex.Matches] at hm
  rcases hm with ⟨m₁, m₂, rfl, rfl, _⟩ | rfl
  · exact Or.inl ⟨m₂, rfl⟩
  · exact Or.inr rfl

theorem queryClass_not_idClass (q : Char) (hq : queryClass q = true) : idClass q = false := by
  simp only [queryClass, Bool.or_eq_true, beq_iff_eq] at hq
  rcases hq with rfl | rfl <;> decide

/-- A test by running the search: something found that uses up the text, so
the expression matches the text. -/
theorem Matches_of_run (re : Regex) (m : Str)
    (h : (re.run m []).any (fun x => x.1.isEmpty) = true) : re.Matches m := by
  obtain ⟨x, hx, hempty⟩ := List.any_eq_true.mp h
  obtain ⟨m', hs, hm'⟩ := run_sound re m [] x hx
  have hx1 : x.1 = [] := by simpa using hempty
  rw [hx1, List.append_nil] at hs
  rw [hs]
  exact hm'

theorem find_of_matchAt (re : Regex) (n : Nat) (s : Str) (x : Str × List Str)
    (h : re.matchAt n s = some x) : re.find n s = some x := by
  cases s with
  | nil => simpa [Regex.find] using h
  | cons c t => simp [Regex.find, h]

theorem length_le_len (s : Str) : s.length ≤ len s := by
  induction s with
  | nil => simp [len]
  | cons c t ih =>
    have := Char.utf8Size_pos c
    simp only [len, List.map_cons, List.sum_cons, List.length_cons] at ih ⊢
    omega

/-- The match of `VideoIDRegex` at the head of `P ++ ID ++ tail`, when the
lead matches `P` and no other prefix that has 11 characters behind it. -/
theorem matchAt_VideoID_of_unique (P ID tail : Str) (hPm : VideoIDLead.Matches P)
    (hIDlen : ID.length = 11) (hID : ∀ c ∈ ID, idClass c = true)
    (huniq : ∀ m₀ id z₁, P ++ ID ++ tail = m₀ ++ id ++ z₁ → VideoIDLead.Matches m₀ →
      id.length = 11 → m₀ = P) :
    VideoIDRegex.matchAt 1 (P ++ ID ++ tail) = some (tail, [P ++ ID, ID]) := by
  have hall : ∀ z ∈ VideoIDRegex.run (P ++ ID ++ tail) (List.replicate (1 + 1) []),
      z = (tail, [[], ID]) := by
    intro z hz
    obtain ⟨m₀, id, hs, hm₀, hidlen, _, hcaps⟩ := run_VideoIDRegex_sound _ _ z hz
    have hm₀P := huniq m₀ id z.1 hs hm₀ hidlen
    subst hm₀P
    have hs2 : ID ++ tail = id ++ z.1 := by
      simp only [List.append_assoc] at hs
      exact List.append_cancel_left hs
    obtain ⟨hid, htail⟩ := List.append_inj hs2 (by rw [hIDlen, hidlen])
    apply Prod.ext
    · exact htail.symm
    · rw [hcaps, ← hid]
      rfl
  have hex : ∃ caps', (tail, caps') ∈
      VideoIDRegex.run (P ++ ID ++ tail) (List.replicate (1 + 1) []) :=
    run_complete VideoIDRegex (P ++ ID) tail _ ⟨P, ID, rfl, hPm, hIDlen, hID⟩
  cases hr : VideoIDRegex.run (P ++ ID ++ tail) (List.replicate (1 + 1) []) with
  | nil =>
    obtain ⟨caps', hc⟩ := hex
    rw [hr] at hc
    cases hc
  | cons z zs =>
    have hz := hall z (by rw [hr]; simp)
    subst hz
    rw [Regex.matchAt, run_group, hr]
    have htake : List.take (List.length P + (List.length ID + List.length tail) -
        List.length tail) (P ++ (ID ++ tail)) = P ++ ID := by
      rw [← List.append_assoc]
      exact List.take_left' (by simp only [List.length_append]; omega)
    simp [htake]

/-- No match of `VideoIDRegex` starts at a character other than `y`. -/
theorem matchAt_VideoID_of_head_ne (c : Char) (t : Str) (hc : c ≠ 'y') :
    VideoIDRegex.matchAt 1 (c :: t) = none := by
  cases h : VideoIDRegex.matchAt 1 (c :: t) with
  | none => rfl
  | some x =>
    exfalso
    obtain ⟨m, hs, hm⟩ := matchAt_sound VideoIDRegex 1 (c :: t) x h
    simp only [VideoIDRegex, Regex.Matches] at hm
    obtain ⟨m₁, m₂, rfl, hm₁, _⟩ := hm
    rcases VideoIDLead_start m₁ hm₁ with ⟨m', rfl⟩ | rfl
    · simp at hs
      exact hc hs.1
    · simp at hs
      exact hc hs.1

/-- The search for the leftmost match of `VideoIDRegex` passes over text
without `y`. -/
theorem find_VideoID_skip (f x : Str) (hf : 'y' ∉ f) :
    VideoIDRegex.find 1 (f ++ x) = VideoIDRegex.find 1 x := by
  induction f with
  | nil => rfl
  | cons c f ih =>
    have hc : c ≠ 'y' := fun h => hf (by simp [h])
    have hf2 : 'y' ∉ f := fun h => hf (by simp [h])
    show VideoIDRegex.find 1 (c :: (f ++ x)) = _
    rw [Regex.find, matchAt_VideoID_of_head_ne c (f ++ x) hc]
    exact ih hf2

/-- The identifier resolved from `front ++ P ++ ID ++ tail`, when `front` has
no `y`, the lead matches `P`, and no other prefix of `P ++ ID ++ tail` that
has 11 characters behind it. -/
theorem retrieveVideoID_of_unique (front P ID tail : Str) (hfront : 'y' ∉ front)
    (hPm : VideoIDLead.Matches P)
    (hIDlen : ID.length = 11) (hID : ∀ c ∈ ID, idClass c = true)
    (huniq : ∀ m₀ id z₁, P ++ ID ++ tail = m₀ ++ id ++ z₁ → VideoIDLead.Matches m₀ →
      id.length = 11 → m₀ = P) :
    retrieveVideoID (front ++ (P ++ ID ++ tail)) = .ok ID := by
  have hPne : 0 < P.length := by
    rcases VideoIDLead_start P hPm with ⟨m', rfl⟩ | rfl <;> simp
  have hlen : len (front ++ (P ++ ID ++ tail)) ≠ 11 := by
    have := length_le_len (front ++ (P ++ ID ++ tail))
    simp only [List.length_append, hIDlen] at this
    omega
  have hfind : VideoIDRegex.find 1 (front ++ (P ++ ID ++ tail)) =
      some (tail, [P ++ ID, ID]) := by
    rw [find_VideoID_skip front _ hfront]
    exact find_of_matchAt _ _ _ _ (matchAt_VideoID_of_unique P ID tail hPm hIDlen hID huniq)
  rw [retrieveVideoID_of_find_some _ _ hlen hfind]
  rfl

/-- The expression `VideoIDRegex` in terms of its three alternatives behind
`youtube\.com\/` and its capture group. -/
theorem VideoIDRegex_eq :
    VideoIDRegex =
      .seq (.alt (.seq (.lit "youtube.com/".toList) (.alt pathLead (.alt shortLead queryLead)))
        (.lit "youtu.be/".toList)) idGroup := rfl

theorem run_alt (a b : Regex) (s : Str) (caps : List Str) :
    (Regex.alt a b).run s caps = a.run s caps ++ b.run s caps := by
  rw [Regex.run]

theorem run_lit_append (l x : Str) (caps : List Str) :
    (Regex.lit l).run (l ++ x) caps = [(x, caps)] := by
  have hp : l.isPrefixOf (l ++ x) = true := by
    rw [List.isPrefixOf_iff_prefix]
    exact List.prefix_append l x
  simp [Regex.run, hp]

/-- The search of `VideoIDRegex` in a text that begins with `youtube.com/`:
the three alternatives are tried in their order, each followed by the capture
group. -/
theorem run_VideoIDRegex_youtube (s' : Str) (caps : List Str) :
    VideoIDRegex.run ("youtube.com/".toList ++ s') caps =
      (pathLead.run s' caps).flatMap (fun x => idGroup.run x.1 x.2) ++
        ((shortLead.run s' caps).flatMap (fun x => idGroup.run x.1 x.2) ++
          (queryLead.run s' caps).flatMap (fun x => idGroup.run x.1 x.2)) := by
  have hyb : (Regex.lit "youtu.be/".toList).run ("youtube.com/".toList ++ s') caps = [] := by
    simp [Regex.run, List.isPrefixOf]
  rw [VideoIDRegex_eq, run_seq, run_alt, hyb, List.append_nil, run_seq, run_lit_append]
  simp only [List.flatMap_cons, List.flatMap_nil, List.append_nil, run_alt, List.flatMap_append]

/-- What the search finds for a lead without groups followed by the capture
group: the input without a text that the lead matches and 11 characters of
the identifier class, which are recorded as submatch 1. -/
theorem run_lead_idGroup_sound (X : Regex) (hX : X.groupFree = true) (s : Str)
    (caps : List Str) (z : Str × List Str)
    (hz : z ∈ (X.run s caps).flatMap (fun x => idGroup.run x.1 x.2)) :
    ∃ m₀ id, s = m₀ ++ id ++ z.1 ∧ X.Matches m₀ ∧ id.length = 11 ∧
      (∀ c ∈ id, idClass c = true) ∧ z.2 = caps.set 1 id := by
  rw [List.mem_flatMap] at hz
  obtain ⟨y, hy, hzy⟩ := hz
  obtain ⟨m₀, hs, hm₀⟩ := run_sound X s caps y hy
  have hcaps : y.2 = caps := run_caps_groupFree X hX s caps y hy
  rw [idGroup, run_group, List.mem_map] at hzy
  obtain ⟨w, hw, rfl⟩ := hzy
  by_cases hc : (y.1.take 11).length = 11 ∧ (y.1.take 11).all idClass = true
  · simp only [Regex.run, hc, and_self, if_true, List.mem_singleton] at hw
    subst hw
    have hlen : 11 ≤ y.1.length := by
      have := hc.1
      simp only [List.length_take] at this
      omega
    refine ⟨m₀, y.1.take 11, ?_, hm₀, hc.1, List.all_eq_true.mp hc.2, ?_⟩
    · simp only [List.append_assoc, List.take_append_drop]
      exact hs
    · simp only [List.length_drop, hcaps]
      congr 2
      omega
  · simp only [Regex.run, if_neg hc] at hw
    cases hw

/-- A lead that matches a text in front of 11 characters of the identifier
class is found by the search. -/
theorem run_lead_idGroup_complete (X : Regex) (m₀ id rest : Str) (caps : List Str)
    (hm : X.Matches m₀) (hlen : id.length = 11) (hid : ∀ c ∈ id, idClass c = true) :
    (X.run (m₀ ++ (id ++ rest)) caps).flatMap (fun x => idGroup.run x.1 x.2) ≠ [] := by
  obtain ⟨caps', hc⟩ := run_complete (.seq X idGroup) (m₀ ++ id) rest caps
    ⟨m₀, id, rfl, hm, hlen, hid⟩
  rw [run_seq, List.append_assoc] at hc
  intro h
  rw [h] at hc
  cases hc

/-- An occurrence of a character with property `P` in `W ++ rest`, where `W`
has no such character, lies in `rest`. -/
theorem occurrence_split (P : Char → Prop) (W rest a r : Str) (q : Char) (hq : P q)
    (hW : ∀ c ∈ W, ¬ P c) (h : W ++ rest = a ++ q :: r) :
    ∃ t₁, rest = t₁ ++ q :: r ∧ a = W ++ t₁ := by
  rcases List.append_eq_append_iff.mp h with ⟨a', ha, hrest⟩ | ⟨c', hWeq, hqr⟩
  · exact ⟨a', hrest, ha⟩
  · cases c' with
    | nil =>
      refine ⟨[], ?_, ?_⟩
      · simpa using hqr.symm
      · simpa using hWeq.symm
    | cons x c'' =>
      exfalso
      simp only [List.cons_append, List.cons.injEq] at hqr
      apply hW q _ hq
      rw [hWeq, hqr.1]
      simp

/-- The texts that `pathLead` matches. -/
theorem pathLead_Matches (m : Str) (hm : pathLead.Matches m) :
    ∃ p₁ p₂, m = p₁ ++ '/' :: (p₂ ++ ['/']) ∧ '/' ∉ p₁ ∧ p₂ ≠ [] ∧ '\n' ∉ p₂ := by
  simp only [pathLead, Regex.Matches] at hm
  obtain ⟨p₁, r₁, rfl, ⟨_, hp₁⟩, s₁, r₂, rfl, rfl, p₂, s₂, rfl, ⟨hne, hp₂⟩, rfl⟩ := hm
  refine ⟨p₁, p₂, by simp, ?_, hne, ?_⟩
  · intro h
    have := hp₁ _ h
    simp [notSlashClass] at this
  · intro h
    have := hp₂ _ h
    simp [dotClass] at this

/-- The texts that `shortLead` matches. -/
theorem shortLead_Matches (m : Str) (hm : shortLead.Matches m) :
    m = "v/".toList ∨ m = "e/".toList ∨ m = "embed/".toList := by
  simp only [shortLead, Regex.Matches] at hm
  obtain ⟨a, b, rfl, ha, rfl⟩ := hm
  rcases ha with rfl | ⟨e, o, rfl, rfl, rfl | rfl⟩
  · exact Or.inl rfl
  · exact Or.inr (Or.inr rfl)
  · exact Or.inr (Or.inl rfl)

/-- The texts that `queryLead` matches. -/
theorem queryLead_Matches (m : Str) (hm : queryLead.Matches m) :
    ∃ q₀ q, m = q₀ ++ q :: 'v' :: '=' :: [] ∧ '\n' ∉ q₀ ∧ queryClass q = true := by
  simp only [queryLead, Regex.Matches] at hm
  obtain ⟨q₀, r₁, rfl, hq₀, c₁, r₂, rfl, ⟨q, rfl, hq⟩, rfl⟩ := hm
  refine ⟨q₀, q, by simp, ?_, hq⟩
  intro h
  have := hq₀ _ h
  simp [dotClass] at this

theorem head?_append_of_forall {α : Type} (P : α → Prop) (l l' : List α) (hl : l ≠ [])
    (hall : ∀ z ∈ l, P z) : ∃ z, (l ++ l').head? = some z ∧ P z := by
  cases l with
  | nil => exact absurd rfl hl
  | cons a t => exact ⟨a, rfl, hall a (by simp)⟩

/-- The identifier resolved from `front ++ s`, when `front` has no `y` and the
first match that the search finds at the head of `s` has `ID` as its
submatch. -/
theorem retrieveVideoID_of_head (front s ID : Str) (z : Str × List Str) (hfront : 'y' ∉ front)
    (hlen : 11 < s.length)
    (hhead : (VideoIDRegex.run s (List.replicate (1 + 1) [])).head? = some z)
    (hz : z.2 = (List.replicate (1 + 1) []).set 1 ID) :
    retrieveVideoID (front ++ s) = .ok ID := by
  have hl : len (front ++ s) ≠ 11 := by
    have := length_le_len (front ++ s)
    simp only [List.length_append] at this
    omega
  have hm : VideoIDRegex.matchAt 1 s =
      some (z.1, z.2.set 0 (s.take (s.length - z.1.length))) := by
    rw [Regex.matchAt, run_group, List.head?_map, hhead]
    rfl
  have hfind : VideoIDRegex.find 1 (front ++ s) =
      some (z.1, z.2.set 0 (s.take (s.length - z.1.length))) := by
    rw [find_VideoID_skip front _ hfront]
    exact find_of_matchAt _ _ _ _ hm
  rw [retrieveVideoID_of_find_some _ _ hl hfind, hz]
  rfl

theorem idClass_not_slash (c : Char) (hc : idClass c = true) : ¬ c = '/' := by
  intro h
  rw [h] at hc
  revert hc
  decide

theorem idClass_not_queryClass (c : Char) (hc : idClass c = true) : ¬ queryClass c = true := by
  intro h
  rw [queryClass_not_idClass c h] at hc
  cases hc

/-- Two texts with their first `/` at the head of what follows a part without
`/` have these parts in common. -/
theorem first_slash_unique (K a X r : Str) (hK : '/' ∉ K) (ha : '/' ∉ a)
    (h : K ++ '/' :: X = a ++ '/' :: r) : a = K ∧ X = r := by
  obtain ⟨t₁, hX, haeq⟩ := occurrence_split (fun c => c = '/') K ('/' :: X) a r '/' rfl
    (fun c hc hc' => hK (hc' ▸ hc)) h
  cases t₁ with
  | nil =>
    simp only [List.nil_append, List.cons.injEq, true_and] at hX
    exact ⟨by simpa using haeq, hX⟩
  | cons x t =>
    exfalso
    simp only [List.cons_append, List.cons.injEq] at hX
    apply ha
    rw [haeq, ← hX.1]
    simp

theorem id_eq_of_append (ID tail id z₁ : Str) (hIDlen : ID.length = 11) (hidlen : id.length = 11)
    (h : ID ++ tail = id ++ z₁) : id = ID :=
  (List.append_inj h (by rw [hIDlen, hidlen])).1.symm

/-- The first match that the search finds at the head of
`youtube.com/watch?v=ID` and further text has `ID` as its submatch, when
every identifier that the further text offers to the first or the third
alternative of the expression is `ID`. -/
theorem head_run_watch (ID tail : Str) (caps : List Str) (hIDlen : ID.length = 11)
    (hID : ∀ c ∈ ID, idClass c = true)
    (hS : ∀ t₁ t₂ id t₃, tail = t₁ ++ '/' :: (t₂ ++ '/' :: (id ++ t₃)) → '/' ∉ t₁ → t₂ ≠ [] →
      '\n' ∉ t₂ → id.length = 11 → (∀ c ∈ id, idClass c = true) → id = ID)
    (hQ : ∀ t₁ q id t₂, tail = t₁ ++ q :: 'v' :: '=' :: (id ++ t₂) → queryClass q = true →
      '\n' ∉ t₁ → id.length = 11 → (∀ c ∈ id, idClass c = true) → id = ID) :
    ∃ z, (VideoIDRegex.run ("youtube.com/".toList ++ ("watch?v=".toList ++ (ID ++ tail)))
        caps).head? = some z ∧ z.2 = caps.set 1 ID := by
  rw [run_VideoIDRegex_youtube, ← List.append_nil (_ ++ (_ ++ _))]
  apply head?_append_of_forall
  · have := run_lead_idGroup_complete queryLead "watch?v=".toList ID tail caps
      (Matches_of_run _ _ (by decide)) hIDlen hID
    intro h
    exact this (List.append_eq_nil.mp (List.append_eq_nil.mp h).2).2
  · intro z hz
    rw [List.mem_append, List.mem_append] at hz
    rcases hz with hz | hz | hz
    · -- the first alternative
      obtain ⟨m₀, id, hs, hm₀, hidlen, hid, hcaps⟩ :=
        run_lead_idGroup_sound pathLead (by decide) _ caps z hz
      obtain ⟨p₁, p₂, rfl, hp₁, hp₂ne, hp₂⟩ := pathLead_Matches m₀ hm₀
      have hs' : ("watch?v=".toList ++ ID) ++ tail = p₁ ++ '/' :: (p₂ ++ '/' :: (id ++ z.1)) := by
        rw [List.append_assoc, hs]
        simp
      obtain ⟨t₁, htail, hp₁eq⟩ := occurrence_split (fun c => c = '/') _ tail p₁ _ '/' rfl
        (by
          intro c hc
          rcases List.mem_append.mp hc with hc | hc
          · exact (by decide : ∀ c ∈ "watch?v=".toList, ¬ c = '/') c hc
          · exact idClass_not_slash c (hID c hc)) hs'
      have ht₁ : '/' ∉ t₁ := fun h => hp₁ (by rw [hp₁eq]; simp [h])
      rw [hcaps, hS t₁ p₂ id z.1 htail ht₁ hp₂ne hp₂ hidlen hid]
    · -- the second alternative
      exfalso
      obtain ⟨m₀, id, hs, hm₀, _⟩ := run_lead_idGroup_sound shortLead (by decide) _ caps z hz
      rcases shortLead_Matches m₀ hm₀ with rfl | rfl | rfl <;> simp at hs
    · -- the third alternative
      obtain ⟨m₀, id, hs, hm₀, hidlen, hid, hcaps⟩ :=
        run_lead_idGroup_sound queryLead (by decide) _ caps z hz
      obtain ⟨q₀, q, rfl, hq₀, hq⟩ := queryLead_Matches m₀ hm₀
      have hs₁ : "watch".toList ++ ('?' :: 'v' :: '=' :: (ID ++ tail)) =
          q₀ ++ q :: ('v' :: '=' :: (id ++ z.1)) := by
        have : "watch".toList ++ ('?' :: 'v' :: '=' :: (ID ++ tail)) =
            "watch?v=".toList ++ (ID ++ tail) := rfl
        rw [this, hs]
        simp
      obtain ⟨t₁, hrest, hq₀eq⟩ := occurrence_split (fun c => queryClass c = true) _ _ q₀ _ q hq
        (by decide) hs₁
      cases t₁ with
      | nil =>
        simp only [List.nil_append, List.cons.injEq, true_and] at hrest
        rw [hcaps, id_eq_of_append ID tail id z.1 hIDlen hidlen hrest.2]
      | cons x t₁ =>
        simp only [List.cons_append, List.cons.injEq] at hrest
        have hs₂ : ('v' :: '=' :: ID) ++ tail = t₁ ++ q :: ('v' :: '=' :: (id ++ z.1)) := hrest.2
        obtain ⟨t₂, htail, ht₁eq⟩ := occurrence_split (fun c => queryClass c = true) _ tail t₁ _
          q hq
          (by
            intro c hc
            simp only [List.mem_cons] at hc
            rcases hc with rfl | rfl | hc
            · decide
            · decide
            · exact idClass_not_queryClass c (hID c hc)) hs₂
        have ht₂ : '\n' ∉ t₂ := fun h => hq₀ (by rw [hq₀eq, ht₁eq]; simp [h])
        rw [hcaps, hQ t₂ q id z.1 htail hq ht₂ hidlen hid]

/-- The texts that `shortLead` matches end with their only `/`. -/
theorem shortLead_Matches_slash (m : Str) (hm : shortLead.Matches m) :
    ∃ K, m = K ++ ['/'] ∧ '/' ∉ K := by
  rcases shortLead_Matches m hm with rfl | rfl | rfl
  · exact ⟨"v".toList, rfl, by decide⟩
  · exact ⟨"e".toList, rfl, by decide⟩
  · exact ⟨"embed".toList, rfl, by decide⟩

/-- The first match that the search finds at the head of `youtube.com/K/ID`
and further text, `K/` being a text of the second alternative of the
expression, has `ID` as its submatch, when every identifier that the further
text offers to the first alternative is `ID`. -/
theorem head_run_short (K ID tail : Str) (caps : List Str) (hK : '/' ∉ K)
    (hKm : shortLead.Matches (K ++ ['/'])) (hIDlen : ID.length = 11)
    (hID : ∀ c ∈ ID, idClass c = true)
    (hV : ∀ t₁ id t₂, tail = t₁ ++ '/' :: (id ++ t₂) → '\n' ∉ t₁ → id.length = 11 →
      (∀ c ∈ id, idClass c = true) → id = ID) :
    ∃ z, (VideoIDRegex.run ("youtube.com/".toList ++ (K ++ '/' :: (ID ++ tail)))
        caps).head? = some z ∧ z.2 = caps.set 1 ID := by
  rw [run_VideoIDRegex_youtube, ← List.append_assoc]
  apply head?_append_of_forall
  · have := run_lead_idGroup_complete shortLead (K ++ ['/']) ID tail caps hKm hIDlen hID
    simp only [List.append_assoc, List.singleton_append] at this
    intro h
    exact this (List.append_eq_nil.mp h).2
  · intro z hz
    rcases List.mem_append.mp hz with hz | hz
    · -- the first alternative
      obtain ⟨m₀, id, hs, hm₀, hidlen, hid, hcaps⟩ :=
        run_lead_idGroup_sound pathLead (by decide) _ caps z hz
      obtain ⟨p₁, p₂, rfl, hp₁, hp₂ne, hp₂⟩ := pathLead_Matches m₀ hm₀
      have hs' : K ++ '/' :: (ID ++ tail) = p₁ ++ '/' :: (p₂ ++ '/' :: (id ++ z.1)) := by
        rw [hs]
        simp
      obtain ⟨_, hs₂⟩ := first_slash_unique K p₁ _ _ hK hp₁ hs'
      obtain ⟨t₁, htail, hp₂eq⟩ := occurrence_split (fun c => c = '/') ID tail p₂ _ '/' rfl
        (fun c hc => idClass_not_slash c (hID c hc)) hs₂
      have ht₁ : '\n' ∉ t₁ := fun h => hp₂ (by rw [hp₂eq]; simp [h])
      rw [hcaps, hV t₁ id z.1 htail ht₁ hidlen hid]
    · -- the second alternative
      obtain ⟨m₀, id, hs, hm₀, hidlen, hid, hcaps⟩ :=
        run_lead_idGroup_sound shortLead (by decide) _ caps z hz
      obtain ⟨K', rfl, hK'⟩ := shortLead_Matches_slash m₀ hm₀
      have hs' : K ++ '/' :: (ID ++ tail) = K' ++ '/' :: (id ++ z.1) := by
        rw [hs]
        simp
      obtain ⟨_, hs₂⟩ := first_slash_unique K K' _ _ hK hK' hs'
      rw [hcaps, id_eq_of_append ID tail id z.1 hIDlen hidlen hs₂]

theorem getD_append_cons (t₁ r : Str) (c d : Char) : (t₁ ++ c :: r).getD t₁.length d = c := by
  induction t₁ with
  | nil => rfl
  | cons a t ih => simpa using ih

theorem take_append_cons (t₁ r : Str) : (t₁ ++ r).take t₁.length = t₁ :=
  List.take_left' rfl

theorem drop_append_cons (t₁ r : Str) (c : Char) : (t₁ ++ c :: r).drop (t₁.length + 1) = r := by
  have : t₁ ++ c :: r = (t₁ ++ [c]) ++ r := by simp
  rw [this]
  exact List.drop_left' (by simp)

/-- The condition of C11 on the `/` of the further text, checked position by
position. -/
theorem slash_condition_of_positions (ID tail : Str)
    (h : ∀ k, k < tail.length →
      (tail.getD k ' ' == '/' && !(tail.take k).contains '\n' &&
        ((tail.drop (k + 1)).take 11).length == 11 &&
        ((tail.drop (k + 1)).take 11).all idClass) = true →
      (tail.drop (k + 1)).take 11 = ID) :
    ∀ t₁ id t₂, tail = t₁ ++ '/' :: (id ++ t₂) → '\n' ∉ t₁ → id.length = 11 →
      (∀ c ∈ id, idClass c = true) → id = ID := by
  intro t₁ id t₂ htail hn hlen hid
  have hk := h t₁.length
  rw [htail, getD_append_cons, take_append_cons, drop_append_cons,
    List.take_left' hlen] at hk
  apply hk (by simp)
  simp only [Bool.and_eq_true, beq_self_eq_true, true_and, Bool.not_eq_true', hlen,
    List.all_eq_true]
  exact ⟨by simpa using hn, hid⟩

/-- The condition of C11 on `?v=` and `&v=` in the further text, checked
position by position. -/
theorem query_condition_of_positions (ID tail : Str)
    (h : ∀ k, k < tail.length →
      (queryClass (tail.getD k ' ') && tail.getD (k + 1) ' ' == 'v' &&
        tail.getD (k + 2) ' ' == '=' && !(tail.take k).contains '\n' &&
        ((tail.drop (k + 3)).take 11).length == 11 &&
        ((tail.drop (k + 3)).take 11).all idClass) = true →
      (tail.drop (k + 3)).take 11 = ID) :
    ∀ t₁ q id t₂, tail = t₁ ++ q :: 'v' :: '=' :: (id ++ t₂) → queryClass q = true →
      '\n' ∉ t₁ → id.length = 11 → (∀ c ∈ id, idClass c = true) → id = ID := by
  intro t₁ q id t₂ htail hq hn hlen hid
  have hk := h t₁.length
  have h1 : tail.getD (t₁.length + 1) ' ' = 'v' := by
    have : tail = (t₁ ++ [q]) ++ 'v' :: '=' :: (id ++ t₂) := by simp [htail]
    rw [this]
    have := getD_append_cons (t₁ ++ [q]) ('=' :: (id ++ t₂)) 'v' ' '
    simpa using this
  have h2 : tail.getD (t₁.length + 2) ' ' = '=' := by
    have : tail = (t₁ ++ [q, 'v']) ++ '=' :: (id ++ t₂) := by simp [htail]
    rw [this]
    have := getD_append_cons (t₁ ++ [q, 'v']) (id ++ t₂) '=' ' '
    simpa using this
  have h3 : tail.drop (t₁.length + 3) = id ++ t₂ := by
    have : tail = (t₁ ++ [q, 'v']) ++ '=' :: (id ++ t₂) := by simp [htail]
    rw [this]
    simp
  rw [h1, h2, h3, List.take_left' hlen] at hk
  rw [htail, getD_append_cons, take_append_cons] at hk
  apply hk (by simp)
  simp only [Bool.and_eq_true, beq_self_eq_true, true_and, and_true, hq, Bool.not_eq_true',
    hlen, List.all_eq_true]
  exact ⟨by simpa using hn, hid⟩

/-- The condition of C11 on a `/` behind the first `/` of the further text,
checked position by position. -/
theorem path_condition_of_positions (ID tail : Str)
    (h : ∀ j, j < tail.length → ∀ k, k < tail.length →
      (tail.getD j ' ' == '/' && !(tail.take j).contains '/' && decide (j + 1 < k) &&
        tail.getD k ' ' == '/' && !((tail.take k).drop (j + 1)).contains '\n' &&
        ((tail.drop (k + 1)).take 11).length == 11 &&
        ((tail.drop (k + 1)).take 11).all idClass) = true →
      (tail.drop (k + 1)).take 11 = ID) :
    ∀ t₁ t₂ id t₃, tail = t₁ ++ '/' :: (t₂ ++ '/' :: (id ++ t₃)) → '/' ∉ t₁ → t₂ ≠ [] →
      '\n' ∉ t₂ → id.length = 11 → (∀ c ∈ id, idClass c = true) → id = ID := by
  intro t₁ t₂ id t₃ htail hs hne hn hlen hid
  have htail₂ : tail = (t₁ ++ '/' :: t₂) ++ '/' :: (id ++ t₃) := by simp [htail]
  have hj := h t₁.length (by simp [htail]) (t₁ ++ '/' :: t₂).length (by simp [htail])
  have e1 : tail.getD t₁.length ' ' = '/' := by rw [htail, getD_append_cons]
  have e2 : tail.take t₁.length = t₁ := by rw [htail, take_append_cons]
  have e3 : tail.getD (t₁ ++ '/' :: t₂).length ' ' = '/' := by rw [htail₂, getD_append_cons]
  have e4 : (tail.take (t₁ ++ '/' :: t₂).length).drop (t₁.length + 1) = t₂ := by
    rw [htail₂, take_append_cons, drop_append_cons]
  have e5 : tail.drop ((t₁ ++ '/' :: t₂).length + 1) = id ++ t₃ := by
    rw [htail₂, drop_append_cons]
  have e6 : t₁.length + 1 < (t₁ ++ '/' :: t₂).length := by
    have := List.length_pos.mpr hne
    simp only [List.length_append, List.length_cons]
    omega
  rw [e1, e2, e3, e4, e5, List.take_left' hlen] at hj
  apply hj
  simp only [Bool.and_eq_true, beq_self_eq_true, true_and, and_true, Bool.not_eq_true', hlen,
    List.all_eq_true, decide_eq_true_eq]
  exact ⟨⟨⟨by simpa using hs, e6⟩, by simpa using hn⟩, hid⟩

/-- C11, as amended: for an identifier `ID` of 11 characters of the
identifier class (none is `"`, `&`, `?`, `/` or white space) and any further
text `tail` behind it (none, a delimiter and more, or other text),
`retrieveVideoID` returns `ID`:
(1) for `https://youtu.be/ID` and `tail`, whatever `tail` is;
(2) for `https://www.youtube.com/v/ID` and `https://www.youtube.com/embed/ID`
and `tail`, when `ID` is the only text of 11 characters of the identifier
class that stands directly behind a `/` of `tail` with no newline before it;
(3) for `https://www.youtube.com/watch?v=ID` and `tail`, when `ID` is the
only such text that stands directly behind a `?v=` or `&v=` of `tail` with
no newline before it, or directly behind a `/` of `tail` that has the first
`/` of `tail` and then one or more characters, none a newline, before it.
So further text without `/`, `?v=` and `&v=` never changes the result, and
neither does a `/`, `?v=` or `&v=` that is not directly followed by 11
characters of the identifier class. -/
theorem C11_url_shapes (ID tail : Str) (hIDlen : ID.length = 11)
    (hID : ∀ c ∈ ID, idClass c = true) :
    retrieveVideoID ("https://youtu.be/".toList ++ ID ++ tail) = .ok ID ∧
      ((∀ t₁ id t₂, tail = t₁ ++ '/' :: (id ++ t₂) → '\n' ∉ t₁ → id.length = 11 →
          (∀ c ∈ id, idClass c = true) → id = ID) →
        retrieveVideoID ("https://www.youtube.com/v/".toList ++ ID ++ tail) = .ok ID ∧
        retrieveVideoID ("https://www.youtube.com/embed/".toList ++ ID ++ tail) = .ok ID) ∧
      ((∀ t₁ q id t₂, tail = t₁ ++ q :: 'v' :: '=' :: (id ++ t₂) → queryClass q = true →
          '\n' ∉ t₁ → id.length = 11 → (∀ c ∈ id, idClass c = true) → id = ID) →
        (∀ t₁ t₂ id t₃, tail = t₁ ++ '/' :: (t₂ ++ '/' :: (id ++ t₃)) → '/' ∉ t₁ → t₂ ≠ [] →
          '\n' ∉ t₂ → id.length = 11 → (∀ c ∈ id, idClass c = true) → id = ID) →
        retrieveVideoID ("https://www.youtube.com/watch?v=".toList ++ ID ++ tail) = .ok ID) := by
  refine ⟨?_, ?_, ?_⟩
  · have h := retrieveVideoID_of_unique "https://".toList "youtu.be/".toList ID tail
      (by decide) (Matches_of_run _ _ (by decide)) hIDlen hID
      (by
        intro m₀ id z₁ hs hm₀ _
        rcases VideoIDLead_start m₀ hm₀ with ⟨m', rfl⟩ | rfl
        · simp at hs
        · rfl)
    simpa [List.append_assoc] using h
  · intro hV
    constructor
    · obtain ⟨z, hhead, hz⟩ := head_run_short "v".toList ID tail (List.replicate (1 + 1) [])
        (by decide) (Matches_of_run _ _ (by decide)) hIDlen hID hV
      exact retrieveVideoID_of_head "https://www.".toList _ ID z (by decide)
        (by simp [hIDlen]) hhead hz
    · obtain ⟨z, hhead, hz⟩ := head_run_short "embed".toList ID tail (List.replicate (1 + 1) [])
        (by decide) (Matches_of_run _ _ (by decide)) hIDlen hID hV
      exact retrieveVideoID_of_head "https://www.".toList _ ID z (by decide)
        (by simp [hIDlen]) hhead hz
  · intro hQ hS
    obtain ⟨z, hhead, hz⟩ := head_run_watch ID tail (List.replicate (1 + 1) []) hIDlen hID hS hQ
    exact retrieveVideoID_of_head "https://www.".toList _ ID z (by decide)
      (by simp [hIDlen]) hhead hz

/-- C11, worked instances for the identifier `dQw4w9WgXcQ`: it is resolved
from `https://youtu.be/dQw4w9WgXcQ?t=42`, from the `v/` form followed by
`?version=3&autohide=1`, from the `embed/` form followed by
`?list=PLrAXtmErZgOeiKm4sgNOknGvNjby9efdf` and by `?v=AAAAAAAAAAA`, and from
the `watch?v=` form followed by `&list=PLrAXtmErZgOeiKm4sgNOknGvNjby9efdf`,
by `&t=42s&feature=share` and by `&u=https://example.com/x`. -/
theorem C11_url_shapes_witness :
    retrieveVideoID ("https://youtu.be/".toList ++ sampleVideoID ++ "?t=42".toList) =
        .ok sampleVideoID ∧
      retrieveVideoID ("https://www.youtube.com/v/".toList ++ sampleVideoID ++
        "?version=3&autohide=1".toList) = .ok sampleVideoID ∧
      retrieveVideoID ("https://www.youtube.com/embed/".toList ++ sampleVideoID ++
        "?list=PLrAXtmErZgOeiKm4sgNOknGvNjby9efdf".toList) = .ok sampleVideoID ∧
      retrieveVideoID ("https://www.youtube.com/embed/".toList ++ sampleVideoID ++
        "?v=AAAAAAAAAAA".toList) = .ok sampleVideoID ∧
      retrieveVideoID ("https://www.youtube.com/watch?v=".toList ++ sampleVideoID ++
        "&list=PLrAXtmErZgOeiKm4sgNOknGvNjby9efdf".toList) = .ok sampleVideoID ∧
      retrieveVideoID ("https://www.youtube.com/watch?v=".toList ++ sampleVideoID ++
        "&t=42s&feature=share".toList) = .ok sampleVideoID ∧
      retrieveVideoID ("https://www.youtube.com/watch?v=".toList ++ sampleVideoID ++
        "&u=https://example.com/x".toList) = .ok sampleVideoID :=
  ⟨(C11_url_shapes sampleVideoID "?t=42".toList rfl (by decide)).1,
    ((C11_url_shapes sampleVideoID "?version=3&autohide=1".toList rfl (by decide)).2.1
      (slash_condition_of_positions _ _ (by decide))).1,
    ((C11_url_shapes sampleVideoID "?list=PLrAXtmErZgOeiKm4sgNOknGvNjby9efdf".toList rfl
      (by decide)).2.1 (slash_condition_of_positions _ _ (by decide))).2,
    ((C11_url_shapes sampleVideoID "?v=AAAAAAAAAAA".toList rfl (by decide)).2.1
      (slash_condition_of_positions _ _ (by decide))).2,
    (C11_url_shapes sampleVideoID "&list=PLrAXtmErZgOeiKm4sgNOknGvNjby9efdf".toList rfl
      (by decide)).2.2 (query_condition_of_positions _ _ (by decide))
      (path_condition_of_positions _ _ (by decide)),
    (C11_url_shapes sampleVideoID "&t=42s&feature=share".toList rfl (by decide)).2.2
      (query_condition_of_positions _ _ (by decide))
      (path_condition_of_positions _ _ (by decide)),
    (C11_url_shapes sampleVideoID "&u=https://example.com/x".toList rfl (by decide)).2.2
      (query_condition_of_positions _ _ (by decide))
      (path_condition_of_positions _ _ (by decide))⟩

/-- C11, as stated, fails: behind the identifier `dQw4w9WgXcQ` and a
delimiter, the further text `v=AAAAAAAAAAA` (after `&`) or `AAAAAAAAAAA`
(after `/`) makes `retrieveVideoID` return `AAAAAAAAAAA`. -/
theorem C11_counterexample_further_text :
    retrieveVideoID "https://www.youtube.com/watch?v=dQw4w9WgXcQ&v=AAAAAAAAAAA".toList =
        .ok "AAAAAAAAAAA".toList ∧
      retrieveVideoID "https://www.youtube.com/v/dQw4w9WgXcQ/AAAAAAAAAAA".toList =
        .ok "AAAAAAAAAAA".toList ∧
      retrieveVideoID "https://www.youtube.com/embed/dQw4w9WgXcQ/AAAAAAAAAAA".toList =
        .ok "AAAAAAAAAAA".toList ∧
      "dQw4w9WgXcQ".toList.length = 11 ∧
      (∀ c ∈ "dQw4w9WgXcQ".toList, idClass c = true) ∧
      "AAAAAAAAAAA".toList ≠ "dQw4w9WgXcQ".toList := by
  decide

/-! ## The two notions of length: claims C12, C13, C14, C15

`retrieveVideoID` takes a string of 11 bytes for an identifier, while
`VideoIDRegex` captures 11 characters. For text outside ASCII the two
differ. -/

/-- The leftmost match was found by `run` at some place of the input. -/
theorem find_mem_run (re : Regex) (n : Nat) (s : Str) (x : Str × List Str)
    (h : re.find n s = some x) :
    ∃ a s', s = a ++ s' ∧ x ∈ (Regex.group 0 re).run s' (List.replicate (n + 1) []) := by
  induction s with
  | nil =>
    rw [Regex.find] at h
    exact ⟨[], [], rfl, List.mem_of_mem_head? h⟩
  | cons c t ih =>
    rw [Regex.find] at h
    cases hm : re.matchAt n (c :: t) with
    | some y =>
      rw [hm] at h
      have hyx : y = x := Option.some.inj h
      rw [← hyx]
      exact ⟨[], c :: t, rfl, List.mem_of_mem_head? hm⟩
    | none =>
      rw [hm] at h
      obtain ⟨a, s', hs, hx⟩ := ih h
      exact ⟨c :: a, s', by simp [hs], hx⟩

/-- What `retrieveVideoID` returns: the input when it has 11 bytes,
otherwise 11 characters of the identifier class. -/
theorem retrieveVideoID_ok_cases (videoID id : Str)
    (h : retrieveVideoID videoID = .ok id) :
    (len videoID = 11 ∧ id = videoID) ∨
      (len videoID ≠ 11 ∧ id.length = 11 ∧ ∀ c ∈ id, idClass c = true) := by
  by_cases hl : len videoID = 11
  · rw [retrieveVideoID_of_len videoID hl] at h
    exact Or.inl ⟨hl, (Except.ok.inj h).symm⟩
  · right
    cases hf : VideoIDRegex.find 1 videoID with
    | none =>
      rw [retrieveVideoID_of_find_none videoID hl hf] at h
      cases h
    | some x =>
      rw [retrieveVideoID_of_find_some videoID x hl hf] at h
      have hid : id = x.2.getD 1 [] := (Except.ok.inj h).symm
      obtain ⟨a, s', _, hx⟩ := find_mem_run VideoIDRegex 1 videoID x hf
      rw [run_group, List.mem_map] at hx
      obtain ⟨z, hz, rfl⟩ := hx
      obtain ⟨m₀, id', _, _, hlen, hall, hcaps⟩ := run_VideoIDRegex_sound _ _ z hz
      have hid' : id = id' := by
        rw [hid]
        simp [hcaps]
      rw [hid']
      exact ⟨hl, hlen, hall⟩

/-- C12, the code at the failing input: `ééééééééééé` has 11 characters, but
22 bytes, and `retrieveVideoID` does not return it: it fails with the
identifier-extraction error. -/
theorem C12_eleven_characters_not_returned :
    elevenAccents.length = 11 ∧ len elevenAccents = 22 ∧
      retrieveVideoID elevenAccents = .error (NewTranscriptError extractionMessage) := by
  decide

/-- C13, the code at the failing inputs: `ééééé1` is not 11 characters long
and `VideoIDRegex` has no match in it, yet `retrieveVideoID` succeeds on it
(it has 11 bytes); `ééééééééééé` is 11 characters long, yet
`retrieveVideoID` fails on it. -/
theorem C13_failure_follows_the_byte_length :
    elevenBytes.length = 6 ∧ len elevenBytes = 11 ∧
      VideoIDRegex.find 1 elevenBytes = none ∧
      retrieveVideoID elevenBytes = .ok elevenBytes ∧
      elevenAccents.length = 11 ∧
      retrieveVideoID elevenAccents = .error (NewTranscriptError extractionMessage) := by
  decide

/-- C14, the code at the failing input: `retrieveVideoID` resolves
`https://youtu.be/ééééééééééé` to `ééééééééééé` and then fails on
`ééééééééééé`. -/
theorem C14_resolution_not_idempotent :
    retrieveVideoID ("https://youtu.be/".toList ++ elevenAccents) = .ok elevenAccents ∧
      retrieveVideoID elevenAccents = .error (NewTranscriptError extractionMessage) := by
  decide

/-- C15, the code at the failing inputs: `retrieveVideoID` returns `ééééé1`,
of 6 characters and 11 bytes, as it is, and it returns `ééééééééééé`, of 11
characters and 22 bytes, from `https://youtu.be/ééééééééééé`; neither count
is 11 for both. -/
theorem C15_identifier_length_differs :
    retrieveVideoID elevenBytes = .ok elevenBytes ∧
      elevenBytes.length = 6 ∧ len elevenBytes = 11 ∧
      retrieveVideoID ("https://youtu.be/".toList ++ elevenAccents) = .ok elevenAccents ∧
      elevenAccents.length = 11 ∧ len elevenAccents = 22 := by
  decide

/-! ## The identifier in `NoTranscriptError`: claim C19 -/

/-- C19, the code at the failing inputs: for the identifier `dQw4w9WgXcQ`
and a watch page whose only track is at `urlA`, `FetchTranscript` fails with
a `NoTranscriptError` whose `VideoID` is `urlA` when the track request is
answered with status 404 and when the track has no `text` element; when the
track list is empty the `VideoID` is `dQw4w9WgXcQ`. -/
theorem C19_no_transcript_error_carries_track_url :
    FetchTranscript sampleUnmarshal (fun t => t) oneTrackPageClient notFoundClient
        sampleVideoID none = .error (NewNoTranscriptError "urlA".toList) ∧
      FetchTranscript sampleUnmarshal (fun t => t) oneTrackPageClient emptyTranscriptClient
        sampleVideoID none = .error (NewNoTranscriptError "urlA".toList) ∧
      FetchTranscript sampleUnmarshal (fun t => t) emptyTracksPageClient notFoundClient
        sampleVideoID none = .error (NewNoTranscriptError sampleVideoID) ∧
      retrieveVideoID sampleVideoID = .ok sampleVideoID ∧
      "urlA".toList ≠ sampleVideoID := by
  decide

/-! ## The scan of the numbers: claim C16 -/

theorem makeSegment_Offset {F : Type} (scanFloat : Str → F) (requestedLang defaultLang : Str)
    (m : List Str) :
    (makeSegment scanFloat requestedLang defaultLang m).Offset = scanFloat (m.getD 1 []) := by
  unfold makeSegment
  by_cases h : requestedLang = [] <;> simp [h]

theorem makeSegment_Duration {F : Type} (scanFloat : Str → F)
    (requestedLang defaultLang : Str) (m : List Str) :
    (makeSegment scanFloat requestedLang defaultLang m).Duration =
      scanFloat (m.getD 2 []) := by
  unfold makeSegment
  by_cases h : requestedLang = [] <;> simp [h]

theorem mem_zip_map_self {α β : Type} (f : α → β) (l : List α) (p : α × β)
    (hp : p ∈ l.zip (l.map f)) : p.2 = f p.1 := by
  induction l with
  | nil => simp at hp
  | cons a l ih =>
    simp only [List.map_cons, List.zip_cons_cons, List.mem_cons] at hp
    rcases hp with rfl | hp
    · rfl
    · exact ih hp

/-- The scan of `%f` in terms of the token: the conversion of the token, and
zero when there is no token or the conversion rejects it. -/
theorem SscanfFloat_eq_scanToken {F : Type} (convertFloat : Str → Option F) (zero : F)
    (t : Str) :
    SscanfFloat convertFloat zero t = ((scanToken t).bind convertFloat).getD zero := by
  unfold SscanfFloat scanToken
  cases skipSpace t with
  | none => rfl
  | some t₁ =>
    dsimp only
    cases skipSpace t₁ with
    | none => rfl
    | some t₂ => cases t₂ <;> rfl

/-- The scan leaves the variable zero when it reads no token, or a token that
the conversion rejects. -/
theorem SscanfFloat_of_rejected {F : Type} (convertFloat : Str → Option F) (zero : F)
    (t : Str) (h : ∀ token, scanToken t = some token → convertFloat token = none) :
    SscanfFloat convertFloat zero t = zero := by
  rw [SscanfFloat_eq_scanToken]
  cases hs : scanToken t with
  | none => rfl
  | some token => simp [h token hs]

/-- C16, as amended: whenever the fetched payload has a matched element,
parsing with the scan of `%f` does not fail and gives one segment for each
matched element, in order; and for every matched element whose `start`
(respectively `dur`) text holds no number that the scan can read, the
`Offset` (respectively `Duration`) of its segment is zero. The scan reads no
number when it meets a newline or the end of the text while it skips leading
space, or when the token it then reads, the longest text of the shape of a
number at that place and not the whole text, is rejected by the conversion
(`strconv.ParseFloat`), as the tokens of `abc`, `null` and `error` are: the
empty token, `n` and `e`. -/
theorem C16_failed_scan_leaves_zero {F : Type} (convertFloat : Str → Option F)
    (zero : F) (client : HTTPClient) (transcriptURL requestedLang defaultLang payload : Str)
    (hclient : client transcriptURL requestedLang = .response 200 (.ok payload))
    (hmatch : FindAllStringSubmatch TranscriptXMLRegex 3 payload ≠ []) :
    ∃ segs, fetchAndParseTranscript (SscanfFloat convertFloat zero) client transcriptURL
          requestedLang defaultLang = .ok segs ∧
      segs.length = (FindAllStringSubmatch TranscriptXMLRegex 3 payload).length ∧
      ∀ p ∈ (FindAllStringSubmatch TranscriptXMLRegex 3 payload).zip segs,
        ((∀ token, scanToken (p.1.getD 1 []) = some token → convertFloat token = none) →
          p.2.Offset = zero) ∧
        ((∀ token, scanToken (p.1.getD 2 []) = some token → convertFloat token = none) →
          p.2.Duration = zero) := by
  refine ⟨(FindAllStringSubmatch TranscriptXMLRegex 3 payload).map
      (makeSegment (SscanfFloat convertFloat zero) requestedLang defaultLang), ?_, by simp, ?_⟩
  · rw [fetchAndParseTranscript_of_payload _ client _ _ _ payload hclient]
    cases hms : FindAllStringSubmatch TranscriptXMLRegex 3 payload with
    | nil => exact absurd hms hmatch
    | cons m ms => rfl
  · intro p hp
    have hp2 := mem_zip_map_self _ _ p hp
    constructor
    · intro hstart
      rw [hp2, makeSegment_Offset]
      exact SscanfFloat_of_rejected convertFloat zero _ hstart
    · intro hdur
      rw [hp2, makeSegment_Duration]
      exact SscanfFloat_of_rejected convertFloat zero _ hdur

/-- C16, worked instance: in a payload under a `transcript` element, the
elements with the `start` and `dur` texts empty and `abc`, ` abc` and `null`,
a newline before `1.5` and `error` give three segments whose `Offset` and
`Duration` are zero; the scan reads no token from the empty text and behind
the newline, the empty token from `abc` and ` abc`, and the tokens `n` and
`e` from `null` and `error`. -/
theorem C16_failed_scan_leaves_zero_witness :
    (scanToken [] = none ∧ scanToken "abc".toList = some [] ∧
      scanToken " abc".toList = some [] ∧ scanToken "null".toList = some "n".toList ∧
      scanToken "\n1.5".toList = none ∧ scanToken "error".toList = some "e".toList) ∧
      fetchAndParseTranscript (SscanfFloat sampleConvertFloat Float64.zero)
          (fun _ _ => .response 200 (.ok unreadableTranscript)) "urlA".toList [] "en".toList =
        .ok [⟨"one".toList, Float64.zero, Float64.zero, "en".toList⟩,
          ⟨"two".toList, Float64.zero, Float64.zero, "en".toList⟩,
          ⟨"three".toList, Float64.zero, Float64.zero, "en".toList⟩] ∧
      ∃ segs, fetchAndParseTranscript (SscanfFloat sampleConvertFloat Float64.zero)
            (fun _ _ => .response 200 (.ok unreadableTranscript)) "urlA".toList [] "en".toList =
          .ok segs ∧
        segs.length = (FindAllStringSubmatch TranscriptXMLRegex 3 unreadableTranscript).length ∧
        ∀ p ∈ (FindAllStringSubmatch TranscriptXMLRegex 3 unreadableTranscript).zip segs,
          ((∀ token, scanToken (p.1.getD 1 []) = some token →
              sampleConvertFloat token = none) → p.2.Offset = Float64.zero) ∧
          ((∀ token, scanToken (p.1.getD 2 []) = some token →
              sampleConvertFloat token = none) → p.2.Duration = Float64.zero) :=
  ⟨by decide, by decide,
    C16_failed_scan_leaves_zero sampleConvertFloat Float64.zero
      (fun _ _ => .response 200 (.ok unreadableTranscript)) "urlA".toList [] "en".toList
      unreadableTranscript rfl (by decide)⟩

/-- C16, as stated, fails: for the element
`<text start="1.5x" dur="2.0">Hi</text>` the scan of `1.5x` reads the token
`1.5`, and the `Offset` of the segment is what the conversion gives for
`1.5`, the number 3 · 2⁻¹, not zero. -/
theorem C16_counterexample_number_with_trailing_letter :
    timedText trailingLetterElements [] =
        "<text start=\"1.5x\" dur=\"2.0\">Hi</text>".toList ∧
      floatToken "1.5x".toList = "1.5".toList ∧
      (∀ (F : Type) (convertFloat : Str → Option F) (zero : F),
        SscanfFloat convertFloat zero "1.5x".toList =
          (convertFloat "1.5".toList).getD zero) ∧
      fetchAndParseTranscript (SscanfFloat sampleConvertFloat Float64.zero)
          (fun _ _ => .response 200 (.ok (timedText trailingLetterElements [])))
          "urlA".toList [] "en".toList =
        .ok [⟨"Hi".toList, ⟨1, 1⟩, ⟨3, -1⟩, "en".toList⟩] ∧
      (⟨3, -1⟩ : Float64) ≠ Float64.zero :=
  ⟨by decide, by decide, fun _ _ _ => rfl, by decide, by decide⟩

/-! ## Where a separator is found first -/

theorem isPrefixOf_of_append (u v w : Str) (h : u.isPrefixOf (v ++ w) = true)
    (hlen : u.length ≤ v.length) : u.isPrefixOf v = true := by
  rw [List.isPrefixOf_iff_prefix] at h ⊢
  exact List.prefix_of_prefix_length_le h (List.prefix_append v w) hlen

theorem isPrefixOf_append_drop (sep a x : Str) (h : sep.isPrefixOf (a ++ x) = true)
    (hlen : a.length ≤ sep.length) : (sep.drop a.length).isPrefixOf x = true := by
  rw [List.isPrefixOf_iff_prefix] at h ⊢
  have ha : a <+: sep := List.prefix_of_prefix_length_le (List.prefix_append a x) h hlen
  obtain ⟨r, rfl⟩ := ha
  rw [List.drop_left]
  exact (List.prefix_append_right_inj a).mp h

theorem isPrefixOf_take_of_append (u v w : Str) (h : u.isPrefixOf (v ++ w) = true) :
    (u.take v.length).isPrefixOf v = true := by
  rw [List.isPrefixOf_iff_prefix] at h ⊢
  have h1 : u.take v.length <+: v ++ w := (List.take_prefix _ u).trans h
  exact List.prefix_of_prefix_length_le h1 (List.prefix_append v w)
    (by simp only [List.length_take]; omega)

theorem Contains_of_isPrefixOf (s sep : Str) (h : sep.isPrefixOf s = true) :
    Contains s sep = true := by
  cases s with
  | nil =>
    have hsep : sep = [] := by
      rw [List.isPrefixOf_iff_prefix] at h
      exact List.prefix_nil.mp h
    simp [Contains, Index, hsep]
  | cons c t => simp [Contains, Index, h]

theorem Contains_tail (c : Char) (t sep : Str) (h : Contains (c :: t) sep = false) :
    Contains t sep = false := by
  simp only [Contains] at h ⊢
  rw [Index] at h
  by_cases hp : sep.isPrefixOf (c :: t) = true
  · simp [hp] at h
  · rw [if_neg hp] at h
    cases hi : Index t sep with
    | none => rfl
    | some m => simp [hi] at h

/-- A text found behind some place of a string is found by `Contains`. -/
theorem Contains_of_isPrefixOf_drop (s sep : Str) (i : Nat)
    (h : sep.isPrefixOf (s.drop i) = true) : Contains s sep = true := by
  induction s generalizing i with
  | nil =>
    rw [List.drop_nil] at h
    exact Contains_of_isPrefixOf [] sep h
  | cons c t ih =>
    cases i with
    | zero => exact Contains_of_isPrefixOf _ sep h
    | succ j =>
      rw [List.drop_succ_cons] at h
      have := ih j h
      by_cases hc : Contains (c :: t) sep = true
      · exact hc
      · have hf : Contains (c :: t) sep = false := by simpa using hc
        rw [Contains_tail c t sep hf] at this
        cases this

/-- The occurrence that `Index` reports is an occurrence. -/
theorem Index_some_isPrefixOf (s sep : Str) (m : Nat) (h : Index s sep = some m) :
    sep.isPrefixOf (s.drop m) = true := by
  induction s generalizing m with
  | nil =>
    by_cases hsep : sep = []
    · simp [hsep]
    · simp [Index, hsep] at h
  | cons c t ih =>
    rw [Index] at h
    by_cases hp : sep.isPrefixOf (c :: t) = true
    · rw [if_pos hp] at h
      cases h
      exact hp
    · rw [if_neg hp] at h
      cases hi : Index t sep with
      | none => simp [hi] at h
      | some k =>
        simp [hi] at h
        rw [← h, List.drop_succ_cons]
        exact ih k hi

/-- In `a ++ sep ++ b` the separator is found first behind `a`, when `a` does
not contain it and no proper end of the separator is a beginning of it. -/
theorem Index_append_first (a sep b : Str) (hne : sep ≠ [])
    (ha : Contains a sep = false)
    (hsep : ∀ k, 0 < k → k < sep.length → (sep.drop k).isPrefixOf sep = false) :
    Index (a ++ sep ++ b) sep = some a.length := by
  induction a with
  | nil =>
    have hp : sep.isPrefixOf (sep ++ b) = true := by
      rw [List.isPrefixOf_iff_prefix]
      exact List.prefix_append sep b
    cases hs : sep ++ b with
    | nil => exact absurd (List.append_eq_nil.mp hs).1 hne
    | cons c t =>
      rw [hs] at hp
      simp [Index, hs, hp]
  | cons c a ih =>
    have hnot : sep.isPrefixOf (c :: (a ++ sep ++ b)) = false := by
      by_cases hp : sep.isPrefixOf (c :: (a ++ sep ++ b)) = true
      · exfalso
        have hp' : sep.isPrefixOf ((c :: a) ++ (sep ++ b)) = true := by
          simpa [List.append_assoc] using hp
        by_cases hlen : sep.length ≤ (c :: a).length
        · have := Contains_of_isPrefixOf _ _ (isPrefixOf_of_append sep (c :: a) _ hp' hlen)
          rw [ha] at this
          cases this
        · have h1 := isPrefixOf_append_drop sep (c :: a) _ hp' (by omega)
          have h2 := isPrefixOf_of_append _ sep b h1 (by simp)
          rw [hsep (c :: a).length (by simp) (by omega)] at h2
          cases h2
      · exact Bool.eq_false_iff.mpr hp
    show Index (c :: (a ++ sep ++ b)) sep = some (a.length + 1)
    rw [Index, hnot, ih (Contains_tail c a sep ha)]
    rfl

/-- Behind a captions block `J` and the video-details boundary, the captions
marker is not found before the end of the boundary. -/
theorem Index_captionsMarker_behind (J rest : Str) (m : Nat)
    (hJ : Contains J captionsMarker = false)
    (hm : Index (J ++ videoDetailsMarker ++ rest) captionsMarker = some m) :
    J.length + videoDetailsMarker.length ≤ m := by
  by_contra hlt
  have hp := Index_some_isPrefixOf _ _ _ hm
  rw [List.append_assoc] at hp
  by_cases hle : m ≤ J.length
  · -- the occurrence begins in `J`
    rw [List.drop_append_of_le_length hle] at hp
    by_cases hlen : captionsMarker.length ≤ (J.drop m).length
    · have h1 := isPrefixOf_of_append _ _ _ hp hlen
      have h2 := Contains_of_isPrefixOf_drop J captionsMarker m h1
      rw [hJ] at h2
      cases h2
    · have h1 := isPrefixOf_append_drop captionsMarker (J.drop m) _ hp (by omega)
      have hk : (J.drop m).length < 11 := by
        have : captionsMarker.length = 11 := by decide
        omega
      have h2 := isPrefixOf_of_append _ videoDetailsMarker rest h1 (by
        have : videoDetailsMarker.length = 14 := by decide
        have : captionsMarker.length = 11 := by decide
        simp only [List.length_drop]
        omega)
      have hdec : ∀ k, k < 11 →
          (captionsMarker.drop k).isPrefixOf videoDetailsMarker = false := by decide
      rw [hdec _ hk] at h2
      cases h2
  · -- the occurrence begins in the boundary
    have hVD : videoDetailsMarker.length = 14 := by decide
    have hj : m - J.length < 14 := by omega
    have hj0 : 0 < m - J.length := by omega
    have hdrop : (J ++ (videoDetailsMarker ++ rest)).drop m =
        videoDetailsMarker.drop (m - J.length) ++ rest := by
      rw [List.drop_append_eq_append_drop]
      have h0 : J.drop m = [] := List.drop_eq_nil_of_le (by omega)
      rw [h0, List.nil_append, List.drop_append_of_le_length (by omega)]
    rw [hdrop] at hp
    have h1 := isPrefixOf_take_of_append _ _ _ hp
    have hdec : ∀ j, j < 14 → 0 < j →
        (captionsMarker.take (videoDetailsMarker.drop j).length).isPrefixOf
          (videoDetailsMarker.drop j) = false := by decide
    rw [hdec _ hj hj0] at h1
    cases h1

/-- The first part that `genSplit` returns: the string, or the string up to
the first separator. -/
theorem genSplit_head (sep s : Str) (n : Nat) :
    (genSplit sep n s).headD [] = s ∨
      ∃ m, Index s sep = some m ∧ (genSplit sep n s).headD [] = s.take m := by
  cases n with
  | zero => exact Or.inl rfl
  | succ k =>
    rw [genSplit]
    cases hi : Index s sep with
    | none => exact Or.inl rfl
    | some m => exact Or.inr ⟨m, rfl, rfl⟩

/-- The parts of `a ++ sep ++ b` when the separator is found first behind
`a`. -/
theorem Split_append_first (a sep b : Str) (hne : sep ≠ [])
    (hfirst : Index (a ++ sep ++ b) sep = some a.length) :
    ∃ n, Split (a ++ sep ++ b) sep = a :: genSplit sep n b := by
  have hpos : 0 < sep.length := List.length_pos.mpr hne
  unfold Split
  rw [if_neg hne]
  cases hl : (a ++ sep ++ b).length with
  | zero =>
    simp only [List.length_append] at hl
    omega
  | succ k =>
    refine ⟨k, ?_⟩
    rw [genSplit, hfirst]
    simp only [List.append_assoc]
    rw [List.take_left' rfl]
    congr 2
    rw [← List.append_assoc, List.drop_left' (by simp)]

/-- Removing one character with `ReplaceAll` is filtering it out. -/
theorem replaceLoop_char (c : Char) (s : Str) :
    ∀ n, s.length ≤ n → replaceLoop [c] [] n s = s.filter (fun d => d != c) := by
  induction s with
  | nil =>
    intro n _
    cases n <;> simp [replaceLoop, Index]
  | cons a t ih =>
    intro n hn
    cases n with
    | zero => simp at hn
    | succ k =>
      have hk : t.length ≤ k := by simpa using hn
      rw [replaceLoop, Index]
      by_cases hac : c = a
      · subst hac
        simp [List.isPrefixOf, ih k hk]
      · have hp : List.isPrefixOf [c] (a :: t) = false := by
          simp [List.isPrefixOf, hac]
        have hca : (a != c) = true := by
          simpa using fun h : a = c => hac h.symm
        rw [hp]
        simp only [Bool.false_eq_true, if_false, List.filter_cons, hca, if_true]
        have iht := ih k hk
        cases hi : Index t [c] with
        | none =>
          cases k with
          | zero =>
            have : t = [] := List.length_eq_zero.mp (Nat.le_zero.mp hk)
            subst this
            simp
          | succ j =>
            rw [replaceLoop, hi] at iht
            simp [← iht]
        | some m =>
          cases k with
          | zero =>
            have : t = [] := List.length_eq_zero.mp (Nat.le_zero.mp hk)
            subst this
            simp [Index] at hi
          | succ j =>
            rw [replaceLoop, hi] at iht
            have hb := Index_bound t [c] m hi
            have hfuel := replaceLoop_fuel [c] [] (by simp) (j + 1) j
              (t.drop (m + [c].length)) (by simp only [List.length_drop]; omega)
              (by simp only [List.length_drop, List.length_singleton] at hb ⊢; omega)
            simp only [Option.map_some', List.length_singleton, List.append_nil] at iht ⊢
            simp only [List.length_singleton] at hfuel
            rw [← iht]
            simp [hfuel, Nat.add_assoc]

theorem ReplaceAll_newline (s : Str) :
    ReplaceAll s "\n".toList [] = s.filter (fun d => d != '\n') :=
  replaceLoop_char '\n' s s.length (Nat.le_refl _)

/-- The text handed to the decoder for a page `pre ++ "captions": ++ J ++
,"videoDetails ++ rest`. -/
theorem captionsJSONText_of_block (pre J rest : Str)
    (hpre : Contains pre captionsMarker = false)
    (hJ₁ : Contains J captionsMarker = false)
    (hJ₂ : Contains J videoDetailsMarker = false) :
    captionsJSONText ((Split (pre ++ captionsMarker ++ J ++ videoDetailsMarker ++ rest)
      captionsMarker).getD 1 []) = J.filter (fun c => c != '\n') := by
  have hM : captionsMarker ≠ [] := by decide
  have hVD : videoDetailsMarker ≠ [] := by decide
  have hMb : ∀ k, 0 < k → k < captionsMarker.length →
      (captionsMarker.drop k).isPrefixOf captionsMarker = false := by
    have hdec : ∀ k, k < 11 → 0 < k →
        (captionsMarker.drop k).isPrefixOf captionsMarker = false := by decide
    intro k h0 hk
    exact hdec k hk h0
  have hVDb : ∀ k, 0 < k → k < videoDetailsMarker.length →
      (videoDetailsMarker.drop k).isPrefixOf videoDetailsMarker = false := by
    have hdec : ∀ k, k < 14 → 0 < k →
        (videoDetailsMarker.drop k).isPrefixOf videoDetailsMarker = false := by decide
    intro k h0 hk
    exact hdec k hk h0
  have hpage : pre ++ captionsMarker ++ J ++ videoDetailsMarker ++ rest =
      pre ++ captionsMarker ++ (J ++ videoDetailsMarker ++ rest) := by
    simp only [List.append_assoc]
  rw [hpage]
  obtain ⟨n, hsplit⟩ := Split_append_first pre captionsMarker
    (J ++ videoDetailsMarker ++ rest) hM
    (Index_append_first pre captionsMarker _ hM hpre hMb)
  have hget : (Split (pre ++ captionsMarker ++ (J ++ videoDetailsMarker ++ rest))
      captionsMarker).getD 1 [] =
      (genSplit captionsMarker n (J ++ videoDetailsMarker ++ rest)).headD [] := by
    rw [hsplit]
    cases genSplit captionsMarker n (J ++ videoDetailsMarker ++ rest) <;> rfl
  rw [hget]
  -- the second part is `J`, the boundary and some more
  have hX : ∃ rest', (genSplit captionsMarker n (J ++ videoDetailsMarker ++ rest)).headD [] =
      J ++ videoDetailsMarker ++ rest' := by
    rcases genSplit_head captionsMarker (J ++ videoDetailsMarker ++ rest) n with
      h | ⟨m, hm, h⟩
    · exact ⟨rest, h⟩
    · have hle := Index_captionsMarker_behind J rest m hJ₁ hm
      refine ⟨rest.take (m - (J ++ videoDetailsMarker).length), ?_⟩
      rw [h, List.take_append_eq_append_take]
      have hlen : (J ++ videoDetailsMarker).length ≤ m := by
        rw [List.length_append]
        exact hle
      rw [List.take_of_length_le hlen]
  obtain ⟨rest', hX⟩ := hX
  rw [hX]
  obtain ⟨k, hsplit₂⟩ := Split_append_first J videoDetailsMarker rest' hVD
    (Index_append_first J videoDetailsMarker _ hVD hJ₂ hVDb)
  rw [captionsJSONText, hsplit₂]
  exact ReplaceAll_newline J

/-! ## The isolated captions block: claim C17 -/

/-- C17: for a page text `pre ++ "captions": ++ J ++ ,"videoDetails ++ rest`
where `pre` does not contain the captions marker and `J` contains neither
the captions marker nor the video-details boundary, the text that
`parseCaptionsData` hands to the decoder is `J` without its newline
characters, whatever `pre` and `rest` are; the outcome of `parseCaptionsData`
is decided by what the decoder says about this text. -/
theorem C17_isolated_captions_block (unmarshal : Str → Option CaptionsData)
    (pre J rest videoID : Str)
    (hpre : Contains pre captionsMarker = false)
    (hJ₁ : Contains J captionsMarker = false)
    (hJ₂ : Contains J videoDetailsMarker = false) :
    captionsJSONText ((Split (pre ++ captionsMarker ++ J ++ videoDetailsMarker ++ rest)
        captionsMarker).getD 1 []) = J.filter (fun c => c != '\n') ∧
      parseCaptionsData unmarshal
          (pre ++ captionsMarker ++ J ++ videoDetailsMarker ++ rest) videoID =
        match unmarshal (J.filter (fun c => c != '\n')) with
        | none => .error (NewTranscriptDisabledError videoID)
        | some captionsJSON =>
          if captionsJSON.PlayerCaptionsTracklistRenderer.CaptionTracks.length = 0 then
            .error (NewNoTranscriptError videoID)
          else .ok captionsJSON := by
  have htext := captionsJSONText_of_block pre J rest hpre hJ₁ hJ₂
  refine ⟨htext, ?_⟩
  have hc : Contains (pre ++ captionsMarker ++ J ++ videoDetailsMarker ++ rest)
      captionsMarker = true := by
    have h := Contains_infix pre captionsMarker (J ++ videoDetailsMarker ++ rest)
    simpa only [List.append_assoc] using h
  rw [parseCaptionsData_of_marker unmarshal _ videoID hc, htext]

/-- C17, worked instance: the block on two lines is handed to the decoder on
one line, and the page is answered with the document of the block. -/
theorem C17_isolated_captions_block_witness :
    captionsJSONText ((Split (blockPagePre ++ captionsMarker ++ blockPageJSON ++
        videoDetailsMarker ++ blockPageRest) captionsMarker).getD 1 []) =
        ("\x7b\"playerCaptionsTracklistRenderer\":\x7b\"captionTracks\":".toList ++
          "[\x7b\"baseUrl\":\"urlA\",\"languageCode\":\"en\"\x7d]\x7d\x7d".toList) ∧
      Contains blockPageRest captionsMarker = true ∧
      parseCaptionsData sampleUnmarshal (blockPagePre ++ captionsMarker ++ blockPageJSON ++
        videoDetailsMarker ++ blockPageRest) sampleVideoID =
        .ok ⟨⟨[⟨"urlA".toList, "en".toList⟩]⟩⟩ :=
  ⟨(C17_isolated_captions_block sampleUnmarshal blockPagePre blockPageJSON blockPageRest
      sampleVideoID (by decide) (by decide) (by decide)).1,
    by decide,
    (C17_isolated_captions_block sampleUnmarshal blockPagePre blockPageJSON blockPageRest
      sampleVideoID (by decide) (by decide) (by decide)).2⟩

end YtFetcher
